import Mathlib

/-!
# Verification of the jimmy-v5 distributed crawler worker

Shallow embedding of the worker / spider code of the `jimmy-v5` repository:

* `src/jimmy_crawler/spiders/dummy_direct.py` / `dummy_discover.py`:
  `normalize_url` (URL canonicalization built on Python's `urllib.parse`);
* `src/jimmy_crawler/spiders/base.py`: `build_requests_from_task` and the
  per-partition request builders;
* `src/worker.py`: the worker loop, lease/drain behaviour, heartbeat
  scoping, the 2-hour execution timeout and retryable-error classification.

Strings are modelled as `List Char` (`Str`).  The parts of CPython's
`urllib.parse` that `normalize_url` calls (`urlparse`, `parse_qs`,
`urlencode` with its default `doseq=False`, `quote_plus`, `unquote`) are
embedded faithfully for the fragment of behaviour they exercise; places
where the embedding restricts CPython (ASCII-only `str.lower`, no
validation of bracketed IPv6 hosts, no NFKC netloc check) are noted on the
corresponding definitions.
-/

abbrev Str := List Char

/-- ASCII uppercase test (`'A'..'Z'`). -/
def isUpperAscii (c : Char) : Bool := 65 ≤ c.toNat && c.toNat ≤ 90

/-- ASCII lowercase test (`'a'..'z'`). -/
def isLowerAscii (c : Char) : Bool := 97 ≤ c.toNat && c.toNat ≤ 122

/-- ASCII letter test; models `str.isalpha()` restricted to ASCII (CPython's
`urlsplit` additionally checks `isascii()` on the scheme's first char). -/
def isAlphaAscii (c : Char) : Bool := isUpperAscii c || isLowerAscii c

/-- ASCII digit test. -/
def isDigitAscii (c : Char) : Bool := 48 ≤ c.toNat && c.toNat ≤ 57

/-- One character of Python's `str.lower()`.  Modelled for ASCII: non-ASCII
letters are left unchanged (the URLs handled by the spiders are ASCII). -/
def lowerChar (c : Char) : Char :=
  if 65 ≤ c.toNat ∧ c.toNat ≤ 90 then Char.ofNat (c.toNat + 32) else c

/-- Python `str.lower()` (ASCII fragment). -/
def pyLower (s : Str) : Str := s.map lowerChar

/-- Split a string at the first occurrence of `sep` (Python
`s.split(sep, 1)` when `sep` occurs; `none` when it does not, which lets
call sites model `str.find` returning `-1`). -/
def splitFirst (sep : Char) : Str → Option (Str × Str)
  | [] => none
  | c :: rest =>
    if c = sep then some ([], rest)
    else (splitFirst sep rest).map (fun p => (c :: p.1, p.2))

/-- Split at the last occurrence of `sep` (used to model `str.rfind`). -/
def splitLast (sep : Char) (s : Str) : Option (Str × Str) :=
  match splitFirst sep s.reverse with
  | some (a, b) => some (b.reverse, a.reverse)
  | none => none

/-- Longest prefix containing none of `delims`, together with the rest of
the string; models CPython's `_splitnetloc` (scan for the earliest of
`'/'`, `'?'`, `'#'`). -/
def spanNotMem (delims : List Char) : Str → Str × Str
  | [] => ([], [])
  | c :: rest =>
    if c ∈ delims then ([], c :: rest)
    else
      let p := spanNotMem delims rest
      (c :: p.1, p.2)

/-- Python `s.split(sep)` (full split; `"".split(sep) == [""]`). -/
def pySplit (sep : Char) : Str → List Str
  | [] => [[]]
  | c :: rest =>
    if c = sep then [] :: pySplit sep rest
    else
      match pySplit sep rest with
      | [] => [[c]]
      | s :: ss => (c :: s) :: ss

/-- Python string join with a one-character separator. -/
def joinSep (sep : Char) : List Str → Str
  | [] => []
  | [s] => s
  | s :: rest => s ++ sep :: joinSep sep rest

/-- Value of an ASCII hex digit (both cases), `none` otherwise; models the
`_hextobyte` table of `urllib.parse`. -/
def hexVal (c : Char) : Option Nat :=
  if 48 ≤ c.toNat ∧ c.toNat ≤ 57 then some (c.toNat - 48)
  else if 65 ≤ c.toNat ∧ c.toNat ≤ 70 then some (c.toNat - 55)
  else if 97 ≤ c.toNat ∧ c.toNat ≤ 102 then some (c.toNat - 87)
  else none

/-- UTF-8 encoding of one character, as byte values. -/
def utf8Bytes (c : Char) : List Nat :=
  let n := c.toNat
  if n < 0x80 then [n]
  else if n < 0x800 then [0xC0 + n / 64, 0x80 + n % 64]
  else if n < 0x10000 then [0xE0 + n / 4096, 0x80 + (n / 64) % 64, 0x80 + n % 64]
  else [0xF0 + n / 262144, 0x80 + (n / 4096) % 64, 0x80 + (n / 64) % 64, 0x80 + n % 64]

/-- UTF-8 continuation byte test. -/
def isCont (b : Nat) : Bool := 0x80 ≤ b && b ≤ 0xBF

/-- The replacement character U+FFFD produced by `errors='replace'`. -/
def replChar : Char := Char.ofNat 0xFFFD

/-- UTF-8 decoding with `errors='replace'` (fuel-driven so that it is
structural; one replacement character per rejected maximal subsequence, as
CPython's replace handler produces). -/
def utf8DecodeGo : Nat → List Nat → List Char
  | 0, _ => []
  | _, [] => []
  | fuel + 1, b :: rest =>
    if b < 0x80 then Char.ofNat b :: utf8DecodeGo fuel rest
    else if 0xC2 ≤ b ∧ b ≤ 0xDF then
      match rest with
      | c :: rest' =>
        if isCont c then Char.ofNat ((b - 0xC0) * 64 + (c - 0x80)) :: utf8DecodeGo fuel rest'
        else replChar :: utf8DecodeGo fuel rest
      | [] => [replChar]
    else if 0xE0 ≤ b ∧ b ≤ 0xEF then
      match rest with
      | c :: rest' =>
        let lo := if b = 0xE0 then 0xA0 else 0x80
        let hi := if b = 0xED then 0x9F else 0xBF
        if lo ≤ c ∧ c ≤ hi then
          match rest' with
          | d :: rest'' =>
            if isCont d then
              Char.ofNat ((b - 0xE0) * 4096 + (c - 0x80) * 64 + (d - 0x80)) ::
                utf8DecodeGo fuel rest''
            else replChar :: utf8DecodeGo fuel rest'
          | [] => [replChar]
        else replChar :: utf8DecodeGo fuel rest
      | [] => [replChar]
    else if 0xF0 ≤ b ∧ b ≤ 0xF4 then
      match rest with
      | c :: rest' =>
        let lo := if b = 0xF0 then 0x90 else 0x80
        let hi := if b = 0xF4 then 0x8F else 0xBF
        if lo ≤ c ∧ c ≤ hi then
          match rest' with
          | d :: rest'' =>
            if isCont d then
              match rest'' with
              | e :: rest''' =>
                if isCont e then
                  Char.ofNat ((b - 0xF0) * 262144 + (c - 0x80) * 4096 + (d - 0x80) * 64 +
                      (e - 0x80)) :: utf8DecodeGo fuel rest'''
                else replChar :: utf8DecodeGo fuel rest''
              | [] => [replChar]
            else replChar :: utf8DecodeGo fuel rest'
          | [] => [replChar]
        else replChar :: utf8DecodeGo fuel rest
      | [] => [replChar]
    else replChar :: utf8DecodeGo fuel rest

/-- UTF-8 decode with replacement, with enough fuel for the whole input. -/
def utf8Decode (bs : List Nat) : List Char := utf8DecodeGo (bs.length + 1) bs

/-- Scanner for `urllib.parse.unquote`: a `%` followed by two hex digits
becomes a byte; other ASCII characters become their own byte (they join the
surrounding byte run for UTF-8 decoding, as in CPython, where each maximal
ASCII run is percent-decoded to bytes and then UTF-8-decoded); non-ASCII
characters pass through. -/
def unquoteScan : Nat → Str → List (Nat ⊕ Char)
  | 0, _ => []
  | _, [] => []
  | fuel + 1, '%' :: rest =>
    match rest with
    | a :: b :: rest' =>
      match hexVal a, hexVal b with
      | some ha, some hb => Sum.inl (16 * ha + hb) :: unquoteScan fuel rest'
      | _, _ => Sum.inl 0x25 :: unquoteScan fuel (a :: b :: rest')
    | _ => Sum.inl 0x25 :: unquoteScan fuel rest
  | fuel + 1, c :: rest =>
    (if c.toNat < 0x80 then Sum.inl c.toNat else Sum.inr c) :: unquoteScan fuel rest

/-- Assemble the scanner output: byte runs are UTF-8 decoded (with
replacement), pass-through characters are kept. -/
def unquoteAssemble : List (Nat ⊕ Char) → List Nat → Str
  | [], buf => utf8Decode buf.reverse
  | Sum.inl b :: rest, buf => unquoteAssemble rest (b :: buf)
  | Sum.inr c :: rest, buf => utf8Decode buf.reverse ++ c :: unquoteAssemble rest []

/-- `urllib.parse.unquote(s)` with the default `encoding='utf-8'`,
`errors='replace'`. -/
def pyUnquote (s : Str) : Str := unquoteAssemble (unquoteScan (s.length + 1) s) []

/-- `s.replace('+', ' ')`, applied by `parse_qsl` before unquoting. -/
def plusToSpace (s : Str) : Str := s.map (fun c => if c = '+' then ' ' else c)

/-- Bytes never quoted by `urllib.parse.quote`: ASCII alphanumerics and
`'_'`, `'.'`, `'-'`, `'~'` (the call sites in `urlencode` pass `safe=''`). -/
def alwaysSafeByte (b : Nat) : Bool :=
  (65 ≤ b && b ≤ 90) || (97 ≤ b && b ≤ 122) || (48 ≤ b && b ≤ 57) ||
    b = 0x5F || b = 0x2E || b = 0x2D || b = 0x7E

/-- Uppercase hex digit, as produced by `quote`'s `%XX` escapes. -/
def hexUpper (n : Nat) : Char :=
  if n < 10 then Char.ofNat (48 + n) else Char.ofNat (55 + n)

/-- `urllib.parse.quote_plus(s, safe='')`: UTF-8 encode, keep safe bytes,
turn spaces into `'+'`, percent-encode the rest with uppercase hex. -/
def quotePlus (s : Str) : Str :=
  ((s.map utf8Bytes).flatten).map
    (fun b =>
      if b = 0x20 then ['+']
      else if alwaysSafeByte b then [Char.ofNat b]
      else ['%', hexUpper (b / 16), hexUpper (b % 16)]) |>.flatten

/-- Lowercase hex digit (Python `repr` uses lowercase in `\xHH` escapes). -/
def hexLower (n : Nat) : Char :=
  if n < 10 then Char.ofNat (48 + n) else Char.ofNat (87 + n)

/-- One character of Python `repr` for a string quoted with `q`. -/
def reprEscape (q c : Char) : Str :=
  if c = '\\' then ['\\', '\\']
  else if c = q then ['\\', q]
  else if c.toNat = 9 then ['\\', 't']
  else if c.toNat = 10 then ['\\', 'n']
  else if c.toNat = 13 then ['\\', 'r']
  else if c.toNat < 32 ∨ c.toNat = 127 then ['\\', 'x', hexLower (c.toNat / 16), hexLower (c.toNat % 16)]
  else [c]

/-- Python `repr` of a string: single quotes unless the string contains a
single quote and no double quote.  (Non-ASCII non-printable characters are
kept verbatim; the URLs in play are ASCII.) -/
def pyRepr (s : Str) : Str :=
  let q : Char := if '\'' ∈ s ∧ '"' ∉ s then '"' else '\''
  q :: (s.map (reprEscape q)).flatten ++ [q]

/-- Python `str()` of a list of strings (what `urlencode` applies to each
`parse_qs` value because the spiders call it without `doseq=True`). -/
def pyStrOfList (vs : List Str) : Str :=
  '[' :: List.intercalate ", ".data (vs.map pyRepr) ++ [']']

/-- `urllib.parse.urlencode(pairs)` with default `doseq=False`,
`quote_via=quote_plus`, `safe=''`: each value is passed through `str()`
first — for the `list` values coming out of `parse_qs` this embeds the
Python list display into the query string. -/
def pyUrlencode (pairs : List (Str × List Str)) : Str :=
  List.intercalate ['&']
    (pairs.map fun kv => quotePlus kv.1 ++ '=' :: quotePlus (pyStrOfList kv.2))

/-- One `name=value` segment of `parse_qsl` (`keep_blank_values=False`):
empty segments and segments without `'='` or with an empty value are
dropped; names and values get `'+'`→`' '` then percent-decoding. -/
def parseSeg (seg : Str) : Option (Str × Str) :=
  if seg = [] then none
  else
    match splitFirst '=' seg with
    | none => none
    | some (n, v) =>
      if v = [] then none
      else some (pyUnquote (plusToSpace n), pyUnquote (plusToSpace v))

/-- `urllib.parse.parse_qsl(qs)` with defaults. -/
def parse_qsl (qs : Str) : List (Str × Str) :=
  if qs = [] then [] else (pySplit '&' qs).filterMap parseSeg

/-- `parsed_result.setdefault`-style insertion used by `parse_qs`: append
the value to an existing key's list, else add the key at the end (Python
dicts preserve insertion order). -/
def qsAdd (d : List (Str × List Str)) (k : Str) (v : Str) : List (Str × List Str) :=
  match d with
  | [] => [(k, [v])]
  | e :: rest => if e.1 = k then (e.1, e.2 ++ [v]) :: rest else e :: qsAdd rest k v

/-- `urllib.parse.parse_qs(qs)` as an insertion-ordered association list. -/
def parse_qs (qs : Str) : List (Str × List Str) :=
  (parse_qsl qs).foldl (fun d kv => qsAdd d kv.1 kv.2) []

/-- `query.pop(k, None)`: remove the entry for `k` (keys are unique in a
`parse_qs` result). -/
def popKey (k : Str) : List (Str × List Str) → List (Str × List Str)
  | [] => []
  | e :: rest => if e.1 = k then rest else e :: popKey k rest

/-- The sequence of `query.pop(...)` calls in `normalize_url`. -/
def popKeys (ks : List Str) (d : List (Str × List Str)) : List (Str × List Str) :=
  ks.foldl (fun d k => popKey k d) d

/-- Python `<` on code points for one element, generic lexicographic lift
below; `charLtB` matches Python's comparison of one-character strings. -/
def charLtB (a b : Char) : Bool := decide (a.toNat < b.toNat)

/-- Lexicographic strict order on lists from a base strict order; matches
Python's `<` on `str` (over `charLtB`) and on `list` (over the element
order). -/
def lexLtB (lt : α → α → Bool) [DecidableEq α] : List α → List α → Bool
  | [], [] => false
  | [], _ :: _ => true
  | _ :: _, [] => false
  | a :: as, b :: bs => if lt a b then true else if a = b then lexLtB lt as bs else false

/-- Python `<` on strings. -/
def strLtB : Str → Str → Bool := lexLtB charLtB

/-- Python `<` on lists of strings (the values of a `parse_qs` dict). -/
def valsLtB : List Str → List Str → Bool := lexLtB strLtB

/-- Python `<` on the `(key, value-list)` tuples of `query.items()`. -/
def pairLtB (x y : Str × List Str) : Bool :=
  strLtB x.1 y.1 || (x.1 = y.1 && valsLtB x.2 y.2)

/-- The reflexive closure of `pairLtB`; `sorted` produces the unique
permutation that is sorted for this total order. -/
def pairLe (x y : Str × List Str) : Prop := (pairLtB x y || x = y) = true

instance : DecidableRel pairLe := fun x y =>
  inferInstanceAs (Decidable ((pairLtB x y || x = y) = true))

/-- Python `sorted(query.items())`: tuples compare lexicographically; since
the keys of a dict are distinct the order is strict-total on them, so the
stable sort returns the unique `pairLe`-sorted permutation, which
`insertionSort` also returns. -/
def sortPairs (l : List (Str × List Str)) : List (Str × List Str) :=
  List.insertionSort pairLe l

/-- The characters CPython's `urlsplit` removes anywhere in the URL
(`_UNSAFE_URL_BYTES_TO_REMOVE`: tab, CR, LF). -/
def tabCrLf (c : Char) : Bool := c.toNat = 9 || c.toNat = 10 || c.toNat = 13

/-- `url.replace('\t', '').replace('\r', '').replace('\n', '')`. -/
def removeTabCrLf (s : Str) : Str := s.filter (fun c => !tabCrLf c)

/-- `_WHATWG_C0_CONTROL_OR_SPACE` membership. -/
def c0OrSpace (c : Char) : Bool := c.toNat ≤ 0x20

/-- `url.lstrip(_WHATWG_C0_CONTROL_OR_SPACE)` — CPython only strips on the
left, deliberately preserving trailing characters. -/
def lstripC0 (s : Str) : Str := s.dropWhile c0OrSpace

/-- Characters allowed in a scheme (`urllib.parse.scheme_chars`). -/
def schemeCharB (c : Char) : Bool :=
  isAlphaAscii c || isDigitAscii c || c = '+' || c = '-' || c = '.'

/-- First character of the URL must be an ASCII letter for scheme
extraction (`url[0].isascii() and url[0].isalpha()` in `urlsplit`). -/
def headIsAlpha : Str → Bool
  | [] => false
  | c :: _ => isAlphaAscii c

/-- Scheme extraction step of `urlsplit`: split at the first `':'` when the
candidate is a nonempty run of scheme characters starting with a letter;
the scheme is lowercased at extraction. -/
def schemeSplit (url : Str) : Str × Str :=
  match splitFirst ':' url with
  | some (a, b) =>
    if a ≠ [] ∧ headIsAlpha a ∧ a.all schemeCharB then (pyLower a, b) else ([], url)
  | none => ([], url)

/-- `'[' in netloc` xor `']' in netloc` — the condition on which `urlsplit`
raises `ValueError("Invalid IPv6 URL")`. -/
def bracketMismatch (n : Str) : Bool := decide ('[' ∈ n) != decide (']' ∈ n)

structure SplitResult where
  scheme : Str
  netloc : Str
  path : Str
  query : Str
  fragment : Str
deriving DecidableEq

/-- Split at the first occurrence of `sep` when present, keeping everything
otherwise (Python's `url.split(sep, 1)` pattern guarded by `sep in url`).
Used by `urlsplit` for the fragment and the query. -/
def cutFirst (sep : Char) (s : Str) : Str × Str :=
  match splitFirst sep s with
  | some p => p
  | none => (s, [])

/-- Netloc extraction step of `urlsplit`: only when the remainder starts
with `//`, scan up to the earliest of `'/'`, `'?'`, `'#'`. -/
def netlocSplit (rest : Str) : Str × Str :=
  if rest.take 2 = ['/', '/'] then spanNotMem ['/', '?', '#'] (rest.drop 2)
  else ([], rest)

/-- `urllib.parse.urlsplit(url)` with defaults (`scheme=''`,
`allow_fragments=True`).  `none` models the `ValueError` raised on
mismatched `[`/`]` in the netloc.  Not modelled: validation of a
well-bracketed IPv6 host and the NFKC `_checknetloc` check, which can also
raise in CPython for exotic inputs. -/
def urlsplit (url0 : Str) : Option SplitResult :=
  let url1 := removeTabCrLf (lstripC0 url0)
  let sp := schemeSplit url1
  let np := netlocSplit sp.2
  if bracketMismatch np.1 then none
  else
    let fp := cutFirst '#' np.2
    let pq := cutFirst '?' fp.1
    some ⟨sp.1, np.1, pq.1, pq.2, fp.2⟩

/-- `urllib.parse._splitparams`: split `;params` off the last path
segment. -/
def splitparams (p : Str) : Str × Str :=
  match splitLast '/' p with
  | some (a, b) =>
    match splitFirst ';' b with
    | some (b1, b2) => (a ++ '/' :: b1, b2)
    | none => (p, [])
  | none =>
    match splitFirst ';' p with
    | some (a, b) => (a, b)
    | none => (p, [])

structure ParseResult where
  scheme : Str
  netloc : Str
  path : Str
  params : Str
  query : Str
  fragment : Str
deriving DecidableEq

/-- `urllib.parse.urlparse(url)`: `urlsplit` plus params splitting.  Note
`parsed.path` excludes the `;params` part. -/
def urlparse (url : Str) : Option ParseResult :=
  (urlsplit url).map fun r =>
    let pp := splitparams r.path
    ⟨r.scheme, r.netloc, pp.1, pp.2, r.query, r.fragment⟩

/-- `normalize_url` of the dummy spiders, parametrized by the list of
query keys popped (`dummy_direct` pops `session`, `timestamp`,
`utm_source`, `utm_medium`; `dummy_discover` pops `session`, `_t`):

```python
parsed = urlparse(url)
query = parse_qs(parsed.query)
query.pop(..., None) ...
sorted_query = urlencode(sorted(query.items()))
canonical = f"{parsed.scheme}://{parsed.netloc}{parsed.path}"
if sorted_query:
    canonical += f"?{sorted_query}"
return canonical.lower()
```

`none` models the `ValueError` propagating out of `urlparse`. -/
def normalize_url_with (deny : List Str) (url : Str) : Option Str :=
  (urlparse url).map fun p =>
    let query := popKeys deny (parse_qs p.query)
    let sorted_query := pyUrlencode (sortPairs query)
    let canonical := p.scheme ++ ':' :: '/' :: '/' :: (p.netloc ++ p.path)
    let canonical := if sorted_query ≠ [] then canonical ++ '?' :: sorted_query else canonical
    pyLower canonical

/-- The denylist of `DummyDirectPartitionSpider.normalize_url`. -/
def denyDirect : List Str :=
  ["session".data, "timestamp".data, "utm_source".data, "utm_medium".data]

/-- The denylist of `DummyDiscoverSpider.normalize_url`. -/
def denyDiscover : List Str := ["session".data, "_t".data]

/-- `DummyDirectPartitionSpider.normalize_url`. -/
def normalize_url_direct : Str → Option Str := normalize_url_with denyDirect

/-- `DummyDiscoverSpider.normalize_url`. -/
def normalize_url_discover : Str → Option Str := normalize_url_with denyDiscover

/-- The canonical string `normalize_url` rebuilds when the query dict is
empty after the pops: `f"{scheme}://{netloc}{path}".lower()`. -/
def canonicalOf (p : ParseResult) : Str :=
  pyLower (p.scheme ++ ':' :: '/' :: '/' :: (p.netloc ++ p.path))

/-! ## `BaseJimmySpider.build_requests_from_task` (src/jimmy_crawler/spiders/base.py)

Task payloads arrive as JSON; the fields the partition builders read are
modelled as optional values (`payload.get(...)` returning `None` when the
key is absent).  Spider subclass behaviour (`get_page_url`, `get_year_url`,
..., `build_discovery_requests`, and whether `parse_listing` exists) is a
`SpiderHooks` parameter. -/

structure TaskPayload where
  partitionType : Option Str := none
  startPage : Option Int := none
  endPage : Option Int := none
  fromDate : Option Str := none
  toDate : Option Str := none
  startYear : Option Int := none
  endYear : Option Int := none
  sectionUrl : Option Str := none
  sectionId : Option Str := none
  startId : Option Int := none
  endId : Option Int := none
  fromChar : Option Str := none
  toChar : Option Str := none
  urls : List Str := []
  seed : List (Str × Str) := []
deriving DecidableEq

/-- Which callback a built `scrapy.Request` carries. -/
inductive Callback
  | parse
  | parseDetail
  | parseListing
  | parseForLinks
deriving DecidableEq

/-- One `scrapy.Request` as built by the partition handlers: the URL, the
callback, the `meta` entries each handler sets, and the `dont_filter` /
`errback` flags. -/
structure FetchRequest where
  url : Str
  callback : Callback
  metaPage : Option Int := none
  metaYear : Option Int := none
  metaCookiejar : Option Int := none
  metaDepth : Option Nat := none
  metaSectionId : Option Str := none
  dontFilter : Bool := false
  hasErrback : Bool := false
deriving DecidableEq

/-- Portal-specific pieces used by the base resolver. -/
structure SpiderHooks where
  getPageUrl : Int → Str
  getDateRangeUrl : Option Str → Option Str → Str
  getYearUrl : Int → Str
  getIdUrl : Int → Str
  getAlphaRangeUrl : Option Str → Option Str → Str
  hasParseListing : Bool
  discoveryRequests : List (Str × Str) → List FetchRequest

/-- Errors the resolver logs (`self.logger.error(...)`); the tag carries
the data interpolated into the message. -/
inductive ResolveLog
  | unknownPartitionType (pt : Option Str)
  | missingYearRange
deriving DecidableEq

/-- Python exceptions escaping the resolver. -/
inductive PyErr
  | typeError
deriving DecidableEq

/-- Python `range(s, e)` over (unbounded) integers. -/
def pyRange (s e : Int) : List Int :=
  (List.range (e - s).toNat).map (fun i : Nat => s + (i : Int))

/-- `_build_page_range_requests`: `start_page`/`end_page` default to 1,
one request per page of `range(start_page, end_page + 1)`. -/
def build_page_range_requests (h : SpiderHooks) (p : TaskPayload) : List FetchRequest :=
  let s := p.startPage.getD 1
  let e := p.endPage.getD 1
  (pyRange s (e + 1)).map fun page =>
    { url := h.getPageUrl page, callback := .parse, metaPage := some page }

/-- `_build_date_range_requests`: a single request covering the range. -/
def build_date_range_requests (h : SpiderHooks) (p : TaskPayload) : List FetchRequest :=
  [{ url := h.getDateRangeUrl p.fromDate p.toDate, callback := .parse }]

/-- `_build_year_range_requests`: `if not start_year or not end_year` —
Python truthiness, so a missing bound or a bound equal to `0` logs an
error and yields nothing; otherwise one request per year, each with
`meta={'year': year, 'cookiejar': year, 'depth': 1}` and
`dont_filter=True`, callback `parse_listing` when the spider has one. -/
def build_year_range_requests (h : SpiderHooks) (p : TaskPayload) :
    List FetchRequest × List ResolveLog :=
  match p.startYear, p.endYear with
  | some s, some e =>
    if s = 0 ∨ e = 0 then ([], [.missingYearRange])
    else
      ((pyRange s (e + 1)).map fun y =>
        { url := h.getYearUrl y
          callback := if h.hasParseListing then .parseListing else .parse
          metaYear := some y
          metaCookiejar := some y
          metaDepth := some 1
          dontFilter := true }, [])
  | _, _ => ([], [.missingYearRange])

/-- `_build_section_requests`: `if section_url:` — yields one request when
the URL is present and nonempty, silently nothing otherwise. -/
def build_section_requests (p : TaskPayload) : List FetchRequest :=
  match p.sectionUrl with
  | some u => if u = [] then [] else [{ url := u, callback := .parse, metaSectionId := p.sectionId }]
  | none => []

/-- `_build_id_range_requests`: `range(start_id, end_id + 1)` with no
guard — a missing bound is `None` and raises `TypeError` when the
generator is consumed. -/
def build_id_range_requests (h : SpiderHooks) (p : TaskPayload) :
    Except PyErr (List FetchRequest) :=
  match p.startId, p.endId with
  | some s, some e =>
    .ok ((pyRange s (e + 1)).map fun i => { url := h.getIdUrl i, callback := .parseDetail })
  | _, _ => .error .typeError

/-- `_build_alpha_range_requests`: a single request covering the range. -/
def build_alpha_range_requests (h : SpiderHooks) (p : TaskPayload) : List FetchRequest :=
  [{ url := h.getAlphaRangeUrl p.fromChar p.toChar, callback := .parse }]

/-- `_build_url_batch_requests`: one request per URL with an errback. -/
def build_url_batch_requests (p : TaskPayload) : List FetchRequest :=
  p.urls.map fun u => { url := u, callback := .parseDetail, hasErrback := true }

/-- `_build_discover_requests`: delegates to the portal's
`build_discovery_requests(seed)`. -/
def build_discover_requests (h : SpiderHooks) (p : TaskPayload) : List FetchRequest :=
  h.discoveryRequests p.seed

/-- `build_requests_from_task`: string dispatch on `partition_type`; an
unrecognized (or missing) type logs an error and yields no requests. -/
def build_requests_from_task (h : SpiderHooks) (p : TaskPayload) :
    Except PyErr (List FetchRequest × List ResolveLog) :=
  if p.partitionType = some "page_range".data then .ok (build_page_range_requests h p, [])
  else if p.partitionType = some "date_range".data then .ok (build_date_range_requests h p, [])
  else if p.partitionType = some "year_range".data then .ok (build_year_range_requests h p)
  else if p.partitionType = some "section".data then .ok (build_section_requests p, [])
  else if p.partitionType = some "id_range".data then
    (build_id_range_requests h p).map (fun l => (l, []))
  else if p.partitionType = some "alpha_range".data then
    .ok (build_alpha_range_requests h p, [])
  else if p.partitionType = some "url_batch".data then .ok (build_url_batch_requests p, [])
  else if p.partitionType = some "discover".data then .ok (build_discover_requests h p, [])
  else .ok ([], [.unknownPartitionType p.partitionType])

/-- The eight partition types `build_requests_from_task` recognizes. -/
def recognizedPartitionTypes : List Str :=
  ["page_range".data, "date_range".data, "year_range".data, "section".data,
   "id_range".data, "alpha_range".data, "url_batch".data, "discover".data]

/-- An arbitrary concrete portal instantiation, used only to evaluate the
resolver on concrete payloads (the base resolver is portal-agnostic). -/
def testHooks : SpiderHooks :=
  { getPageUrl := fun _ => "https://dummy-api.com/documents".data
    getDateRangeUrl := fun _ _ => "https://dummy-api.com/dates".data
    getYearUrl := fun _ => "https://dummy-api.com/archive".data
    getIdUrl := fun _ => "https://dummy-api.com/doc".data
    getAlphaRangeUrl := fun _ _ => "https://dummy-api.com/alpha".data
    hasParseListing := false
    discoveryRequests := fun _ => [] }

/-! ## `CrawlerWorker` (src/worker.py) -/

/-- What the dashboard's lease endpoint answers one poll with:
`204 No Content`, a leased task (summarized by whether its execution will
succeed), or a request failure (caught inside `lease_task`, which then
returns `None`). -/
inductive LeaseResp
  | noContent
  | leased (exitZero : Bool)
  | reqError
deriving DecidableEq

/-- Observable worker-loop events. -/
inductive WorkerEv
  | leaseRequest
  | sleepPoll
  | runTask
  | completeCall
  | failCall
deriving DecidableEq

/-- `CrawlerWorker.run` / `lease_task`, driven by a list of lease
responses and fuel bounding the number of loop iterations:

* each iteration issues one lease request;
* on `204`: `lease_task` sets `self.running = False` when
  `run_id_filter` is set, and returns `None`; `run` then **sleeps the poll
  interval and continues**, so the `while self.running` check exits only
  after that sleep;
* on a request error: `lease_task` catches it and returns `None`;
  `run` sleeps and continues with `running` unchanged;
* on a task: execute it, then report `complete` or `fail`.

Returns the event trace and the final `self.running` flag. -/
def workerRun (hasFilter : Bool) : Nat → Bool → List LeaseResp → List WorkerEv × Bool
  | 0, running, _ => ([], running)
  | _ + 1, false, _ => ([], false)
  | fuel + 1, true, resps =>
    match resps with
    | [] => ([], true)
    | resp :: rest =>
      match resp with
      | .noContent =>
        let running' := !hasFilter
        let r := workerRun hasFilter fuel running' rest
        (.leaseRequest :: .sleepPoll :: r.1, r.2)
      | .reqError =>
        let r := workerRun hasFilter fuel true rest
        (.leaseRequest :: .sleepPoll :: r.1, r.2)
      | .leased exitZero =>
        let r := workerRun hasFilter fuel true rest
        (.leaseRequest :: .runTask ::
          (if exitZero then WorkerEv.completeCall else WorkerEv.failCall) :: r.1, r.2)

/-- `CrawlerWorker._is_retryable_error`: substring match of the lowercased
error code against the fixed transient set. -/
def retryable_codes : List Str :=
  ["timeout".data, "connection_reset".data, "dns_error".data, "429".data,
   "500".data, "502".data, "503".data, "504".data, "network_error".data]

/-- Python `needle in hay` on strings: contiguous substring test. -/
def strContains (hay needle : Str) : Bool := decide (needle <:+: hay)

/-- `any(code in error_code.lower() for code in retryable_codes)`. -/
def is_retryable_error (error_code : Str) : Bool :=
  retryable_codes.any fun code => strContains (pyLower error_code) code

/-! ### `execute_task` (process supervision, 2-hour timeout) -/

/-- What the spawned `scrapy crawl` process would do if left alone: how
long it runs (seconds) and its exit code. -/
structure ProcBehavior where
  duration : Nat
  exitCode : Int
deriving DecidableEq

/-- Actions `execute_task` takes on the process. -/
inductive ProcAction
  | kill
  | wait
deriving DecidableEq

/-- The `(success, error_code, error_message-summary)` triple
`execute_task` returns (the message text is not load-bearing and is left
out). -/
structure ExecResult where
  success : Bool
  errorCode : Option Str
deriving DecidableEq

/-- `asyncio.wait_for(process.communicate(), timeout=7200)`'s budget. -/
def EXEC_TIMEOUT : Nat := 7200

/-- `CrawlerWorker.execute_task` after the process has been spawned: if the
process outlives the timeout, kill it, wait for it, and report
`error_code="timeout"`; exit code 0 is success; any other exit code is
`spider_error`. -/
def execute_task (p : ProcBehavior) : ExecResult × List ProcAction :=
  if p.duration > EXEC_TIMEOUT then ({ success := false, errorCode := some "timeout".data }, [.kill, .wait])
  else if p.exitCode = 0 then ({ success := true, errorCode := none }, [])
  else ({ success := false, errorCode := some "spider_error".data }, [])

/-! ### `execute_task_with_heartbeat` / `_heartbeat_loop`

Discrete-time embedding of the two coroutines: the heartbeat loop wakes at
times `interval, 2*interval, ...` and posts a heartbeat at each wake that
happens while the task is still executing (ties at the exact settling
instant are resolved in favour of the heartbeat, the conservative choice
for the suppression property); when `execute_task` settles at time `D` the
`finally:` block cancels the heartbeat task and awaits the cancellation
before the outcome is returned. -/

/-- Wake times `k * interval` (`k ≥ 1`) at which a heartbeat is posted:
those `≤ D`, the task's settling time. -/
def heartbeatTimes (interval D : Nat) : List Nat :=
  (List.range (D + 1)).filter fun t => t ≠ 0 ∧ t % interval = 0

/-- Events of one `execute_task_with_heartbeat` call. -/
inductive HbEv
  | heartbeat (t : Nat)
  | taskSettled
  | cancelRequested
  | heartbeatStopped
  | outcomeReturned
deriving DecidableEq

/-- Trace of `execute_task_with_heartbeat` when the spider settles at time
`D`: heartbeats strictly during execution, then the task settles, the
heartbeat task is cancelled, the cancellation is awaited
(`await heartbeat_task` swallowing `CancelledError`), and only then is the
outcome returned. -/
def execute_task_with_heartbeat (interval D : Nat) : List HbEv :=
  (heartbeatTimes interval D).map .heartbeat ++
    [.taskSettled, .cancelRequested, .heartbeatStopped, .outcomeReturned]

/-! ## Basic lemmas about the character and splitting utilities -/

theorem charToNat_ofNat {n : Nat} (h : n < 55296) : (Char.ofNat n).toNat = n := by
  have hv : n.isValidChar := Or.inl h
  rw [Char.ofNat, dif_pos hv]
  rfl

theorem charToNat_inj {a b : Char} (h : a.toNat = b.toNat) : a = b := by
  apply Char.eq_of_val_eq
  apply UInt32.eq_of_toBitVec_eq
  apply BitVec.eq_of_toNat_eq
  exact h

theorem lowerChar_eq_self {c : Char} (h : ¬(65 ≤ c.toNat ∧ c.toNat ≤ 90)) :
    lowerChar c = c := by
  simp [lowerChar, h]

theorem lowerChar_toNat_of_upper {c : Char} (h : 65 ≤ c.toNat ∧ c.toNat ≤ 90) :
    (lowerChar c).toNat = c.toNat + 32 := by
  rw [lowerChar, if_pos h]
  exact charToNat_ofNat (by omega)

theorem lowerChar_idem (c : Char) : lowerChar (lowerChar c) = lowerChar c := by
  by_cases h : 65 ≤ c.toNat ∧ c.toNat ≤ 90
  · have := lowerChar_toNat_of_upper h
    exact lowerChar_eq_self (by omega)
  · rw [lowerChar_eq_self h, lowerChar_eq_self h]

theorem pyLower_idem (s : Str) : pyLower (pyLower s) = pyLower s := by
  simp [pyLower, List.map_map, Function.comp_def, lowerChar_idem]

theorem pyLower_append (a b : Str) : pyLower (a ++ b) = pyLower a ++ pyLower b := by
  simp [pyLower]

/-- For a character that is neither an upper- nor a lowercase ASCII letter,
`lowerChar` hits it exactly at itself. -/
theorem lowerChar_eq_iff {C : Char} (h1 : ¬(65 ≤ C.toNat ∧ C.toNat ≤ 90))
    (h2 : ¬(97 ≤ C.toNat ∧ C.toNat ≤ 122)) (c : Char) : lowerChar c = C ↔ c = C := by
  constructor
  · intro hc
    by_cases hu : 65 ≤ c.toNat ∧ c.toNat ≤ 90
    · exfalso
      have := lowerChar_toNat_of_upper hu
      rw [hc] at this
      omega
    · rwa [lowerChar_eq_self hu] at hc
  · intro hc
    subst hc
    exact lowerChar_eq_self h1

theorem mem_pyLower_iff {C : Char} (h1 : ¬(65 ≤ C.toNat ∧ C.toNat ≤ 90))
    (h2 : ¬(97 ≤ C.toNat ∧ C.toNat ≤ 122)) (s : Str) : C ∈ pyLower s ↔ C ∈ s := by
  simp only [pyLower, List.mem_map]
  constructor
  · rintro ⟨c, hc, hl⟩
    rwa [(lowerChar_eq_iff h1 h2 c).mp hl] at hc
  · intro hc
    exact ⟨C, hc, lowerChar_eq_self h1⟩

theorem splitFirst_eq_some {sep : Char} :
    ∀ {l a b : Str}, splitFirst sep l = some (a, b) → l = a ++ sep :: b ∧ sep ∉ a := by
  intro l
  induction l with
  | nil => intro a b h; simp [splitFirst] at h
  | cons c rest ih =>
    intro a b h
    by_cases hc : c = sep
    · subst hc
      simp [splitFirst] at h
      obtain ⟨ha, hb⟩ := h
      subst ha; subst hb
      simp
    · rw [splitFirst, if_neg hc] at h
      match hr : splitFirst sep rest with
      | none => rw [hr] at h; simp at h
      | some (a', b') =>
        rw [hr] at h
        simp only [Option.map_some', Option.some.injEq, Prod.mk.injEq] at h
        obtain ⟨ha, hb⟩ := h
        subst hb
        obtain ⟨he, hm⟩ := ih hr
        subst ha
        constructor
        · simp [he]
        · intro hmem
          rcases List.mem_cons.mp hmem with hcs | hmem'

          · exact hc hcs.symm
          · exact hm hmem'

theorem splitFirst_eq_none {sep : Char} :
    ∀ {l : Str}, splitFirst sep l = none ↔ sep ∉ l := by
  intro l
  induction l with
  | nil => simp [splitFirst]
  | cons c rest ih =>
    by_cases hc : c = sep
    · subst hc; simp [splitFirst]
    · rw [splitFirst, if_neg hc, Option.map_eq_none', ih]
      simp only [List.mem_cons, not_or]
      constructor
      · intro h
        exact ⟨fun he => hc he.symm, h⟩
      · intro h
        exact h.2

theorem splitFirst_append {sep : Char} {a : Str} (b : Str) (ha : sep ∉ a) :
    splitFirst sep (a ++ sep :: b) = some (a, b) := by
  induction a with
  | nil => simp [splitFirst]
  | cons c rest ih =>
    have hc : ¬c = sep := fun h => ha (by simp [h])
    have hrest : sep ∉ rest := fun h => ha (by simp [h])
    simp [splitFirst, hc, ih hrest]

theorem splitFirst_not_mem {sep : Char} {l : Str} (h : sep ∉ l) :
    splitFirst sep l = none := splitFirst_eq_none.mpr h

theorem spanNotMem_append_eq (ds : List Char) :
    ∀ l : Str, (spanNotMem ds l).1 ++ (spanNotMem ds l).2 = l := by
  intro l
  induction l with
  | nil => simp [spanNotMem]
  | cons c rest ih =>
    by_cases hc : c ∈ ds
    · simp [spanNotMem, hc]
    · simp [spanNotMem, hc, ih]

theorem spanNotMem_clean (ds : List Char) :
    ∀ l : Str, ∀ c ∈ (spanNotMem ds l).1, c ∉ ds := by
  intro l
  induction l with
  | nil => simp [spanNotMem]
  | cons x rest ih =>
    by_cases hx : x ∈ ds
    · simp [spanNotMem, hx]
    · simp only [spanNotMem, if_neg hx]
      intro c hc
      rcases List.mem_cons.mp hc with h | h
      · subst h; exact hx
      · exact ih c h

theorem spanNotMem_of_clean {ds : List Char} {a : Str} (b : Str)
    (ha : ∀ c ∈ a, c ∉ ds) (hb : b = [] ∨ ∃ d, b.head? = some d ∧ d ∈ ds) :
    spanNotMem ds (a ++ b) = (a, b) := by
  induction a with
  | nil =>
    simp only [List.nil_append]
    rcases hb with h | ⟨d, hd, hds⟩
    · subst h; simp [spanNotMem]
    · match b with
      | [] => simp at hd
      | x :: rest =>
        simp at hd
        subst hd
        simp [spanNotMem, hds]
  | cons c rest ih =>
    have hc : c ∉ ds := ha c (by simp)
    have hrest : ∀ x ∈ rest, x ∉ ds := fun x hx => ha x (by simp [hx])
    simp [spanNotMem, hc, ih hrest]

theorem char_eq_iff_toNat {C c : Char} : c = C ↔ c.toNat = C.toNat :=
  ⟨fun h => h ▸ rfl, fun h => charToNat_inj h⟩

theorem isAlphaAscii_lowerChar (c : Char) : isAlphaAscii (lowerChar c) = isAlphaAscii c := by
  by_cases h : 65 ≤ c.toNat ∧ c.toNat ≤ 90
  · have ht := lowerChar_toNat_of_upper h
    simp only [isAlphaAscii, isUpperAscii, isLowerAscii, ht]
    rw [Bool.eq_iff_iff]
    simp only [Bool.or_eq_true, Bool.and_eq_true, decide_eq_true_eq]
    omega
  · rw [lowerChar_eq_self h]

theorem schemeCharB_lowerChar (c : Char) : schemeCharB (lowerChar c) = schemeCharB c := by
  by_cases h : 65 ≤ c.toNat ∧ c.toNat ≤ 90
  · have ht := lowerChar_toNat_of_upper h
    simp only [schemeCharB, isAlphaAscii, isUpperAscii, isLowerAscii, isDigitAscii,
      char_eq_iff_toNat, ht]
    rw [Bool.eq_iff_iff]
    simp only [Bool.or_eq_true, Bool.and_eq_true, decide_eq_true_eq]
    omega
  · rw [lowerChar_eq_self h]

theorem headIsAlpha_pyLower (a : Str) : headIsAlpha (pyLower a) = headIsAlpha a := by
  match a with
  | [] => rfl
  | c :: rest =>
    show isAlphaAscii (lowerChar c) = isAlphaAscii c
    exact isAlphaAscii_lowerChar c

theorem all_schemeCharB_pyLower {a : Str} (h : a.all schemeCharB = true) :
    (pyLower a).all schemeCharB = true := by
  rw [pyLower, List.all_map]
  rw [List.all_eq_true] at h ⊢
  intro c hc
  show schemeCharB (lowerChar c) = true
  rw [schemeCharB_lowerChar]
  exact h c hc

theorem cutFirst_fst_not_mem (sep : Char) (s : Str) : sep ∉ (cutFirst sep s).1 := by
  unfold cutFirst
  match h : splitFirst sep s with
  | some (a, b) => exact (splitFirst_eq_some h).2
  | none => exact splitFirst_eq_none.mp h

theorem cutFirst_fst_subset {sep : Char} {s : Str} : ∀ c ∈ (cutFirst sep s).1, c ∈ s := by
  unfold cutFirst
  match h : splitFirst sep s with
  | some (a, b) =>
    intro c hc
    rw [(splitFirst_eq_some h).1]
    simp only [List.mem_append]
    exact Or.inl hc
  | none => intro c hc; exact hc

theorem cutFirst_of_not_mem {sep : Char} {s : Str} (h : sep ∉ s) : cutFirst sep s = (s, []) := by
  unfold cutFirst
  rw [splitFirst_not_mem h]

theorem cutFirst_append {sep : Char} {a : Str} (b : Str) (ha : sep ∉ a) :
    cutFirst sep (a ++ sep :: b) = (a, b) := by
  unfold cutFirst
  rw [splitFirst_append b ha]

theorem splitLast_eq_some {sep : Char} {s a b : Str} (h : splitLast sep s = some (a, b)) :
    s = a ++ sep :: b ∧ sep ∉ b := by
  unfold splitLast at h
  match hr : splitFirst sep s.reverse with
  | none => rw [hr] at h; simp at h
  | some (a', b') =>
    rw [hr] at h
    simp only [Option.some.injEq, Prod.mk.injEq] at h
    obtain ⟨ha, hb⟩ := h
    obtain ⟨he, hm⟩ := splitFirst_eq_some hr
    subst ha; subst hb
    constructor
    · have : s.reverse.reverse = (a' ++ sep :: b').reverse := by rw [he]
      simpa using this
    · intro hmem
      exact hm (by simpa using hmem)

theorem splitLast_eq_none {sep : Char} {s : Str} (h : splitLast sep s = none) : sep ∉ s := by
  unfold splitLast at h
  match hr : splitFirst sep s.reverse with
  | some p => rw [hr] at h; simp at h
  | none =>
    intro hmem
    exact splitFirst_eq_none.mp hr (by simpa using hmem)

theorem splitparams_no_semi {x : Str} (h : ';' ∉ x) : splitparams x = (x, []) := by
  match hl : splitLast '/' x with
  | some (a, b) =>
    have hx := (splitLast_eq_some hl).1
    have hb : ';' ∉ b := fun hm => h (by rw [hx]; simp [hm])
    simp [splitparams, hl, splitFirst_not_mem hb]
  | none =>
    simp [splitparams, hl, splitFirst_not_mem h]

theorem splitparams_fst_subset {x : Str} : ∀ c ∈ (splitparams x).1, c ∈ x := by
  match hl : splitLast '/' x with
  | some (a, b) =>
    match hf : splitFirst ';' b with
    | some (b1, b2) =>
      intro c hc
      simp only [splitparams, hl, hf] at hc
      have hx := (splitLast_eq_some hl).1
      have hbd := (splitFirst_eq_some hf).1
      rw [hx, hbd]
      simp only [List.mem_append, List.mem_cons] at hc ⊢
      rcases hc with h1 | h1
      · exact Or.inl h1
      · rcases h1 with h2 | h2
        · exact Or.inr (Or.inl h2)
        · exact Or.inr (Or.inr (by simp [h2]))
    | none =>
      intro c hc
      simp only [splitparams, hl, hf] at hc
      exact hc
  | none =>
    match hf : splitFirst ';' x with
    | some (a, b) =>
      intro c hc
      simp only [splitparams, hl, hf] at hc
      rw [(splitFirst_eq_some hf).1]
      simp only [List.mem_append]
      exact Or.inl hc
    | none =>
      intro c hc
      simp only [splitparams, hl, hf] at hc
      exact hc

theorem urlsplit_eq_some {u : Str} {r : SplitResult} (h : urlsplit u = some r) :
    bracketMismatch (netlocSplit (schemeSplit (removeTabCrLf (lstripC0 u))).2).1 = false ∧
      r = ⟨(schemeSplit (removeTabCrLf (lstripC0 u))).1,
           (netlocSplit (schemeSplit (removeTabCrLf (lstripC0 u))).2).1,
           (cutFirst '?' (cutFirst '#'
              (netlocSplit (schemeSplit (removeTabCrLf (lstripC0 u))).2).2).1).1,
           (cutFirst '?' (cutFirst '#'
              (netlocSplit (schemeSplit (removeTabCrLf (lstripC0 u))).2).2).1).2,
           (cutFirst '#' (netlocSplit (schemeSplit (removeTabCrLf (lstripC0 u))).2).2).2⟩ := by
  simp only [urlsplit] at h
  split at h
  · exact absurd h (by simp)
  · rename_i hbr
    simp only [Option.some.injEq] at h
    exact ⟨Bool.not_eq_true _ ▸ by simpa using hbr, h.symm⟩

theorem schemeSplit_scheme_facts {x : Str} (hne : (schemeSplit x).1 ≠ []) :
    headIsAlpha (schemeSplit x).1 = true ∧ (schemeSplit x).1.all schemeCharB = true ∧
      pyLower (schemeSplit x).1 = (schemeSplit x).1 ∧ ':' ∉ (schemeSplit x).1 := by
  match hs : splitFirst ':' x with
  | none => simp [schemeSplit, hs] at hne
  | some (a, b) =>
    by_cases hcond : a ≠ [] ∧ headIsAlpha a ∧ a.all schemeCharB
    · have hss : schemeSplit x = (pyLower a, b) := by simp [schemeSplit, hs, hcond]
      rw [hss]
      refine ⟨?_, ?_, ?_, ?_⟩
      · rw [headIsAlpha_pyLower]; exact hcond.2.1
      · exact all_schemeCharB_pyLower hcond.2.2
      · exact pyLower_idem a
      · rw [mem_pyLower_iff (by decide) (by decide)]
        exact (splitFirst_eq_some hs).2
    · exfalso
      apply hne
      show (schemeSplit x).1 = []
      unfold schemeSplit
      rw [hs]
      dsimp only
      rw [if_neg hcond]

theorem netlocSplit_fst_clean (rest : Str) :
    ∀ c ∈ (netlocSplit rest).1, c ∉ (['/', '?', '#'] : List Char) := by
  unfold netlocSplit
  split
  · exact spanNotMem_clean _ _
  · simp

theorem popKeys_nil (ks : List Str) : popKeys ks [] = [] := by
  induction ks with
  | nil => rfl
  | cons k rest ih => simpa [popKeys, popKey] using ih

theorem normalize_eq_canonical (deny : List Str) {u : Str} {p : ParseResult}
    (hp : urlparse u = some p) (hq : popKeys deny (parse_qs p.query) = []) :
    normalize_url_with deny u = some (canonicalOf p) := by
  simp only [normalize_url_with, hp, Option.map_some', Option.some.injEq, hq]
  rfl

theorem normalize_fixes_canonical (deny : List Str) {u : Str} {p : ParseResult}
    (hp : urlparse u = some p) (hs : p.scheme ≠ [])
    (hclean : removeTabCrLf (lstripC0 (canonicalOf p)) = canonicalOf p)
    (hsemi : ';' ∉ canonicalOf p)
    (hre : (urlsplit (canonicalOf p)).isSome) :
    normalize_url_with deny (canonicalOf p) = some (canonicalOf p) := by
  -- decompose the first parse
  rw [urlparse] at hp
  match hr : urlsplit u with
  | none => rw [hr] at hp; simp at hp
  | some r =>
    rw [hr] at hp
    simp only [Option.map_some', Option.some.injEq] at hp
    obtain ⟨hbr, hrdef⟩ := urlsplit_eq_some hr
    -- scheme facts
    have hps : p.scheme = r.scheme := by rw [← hp]
    have hpn : p.netloc = r.netloc := by rw [← hp]
    have hpp : p.path = (splitparams r.path).1 := by rw [← hp]
    have hrs : r.scheme = (schemeSplit (removeTabCrLf (lstripC0 u))).1 := by rw [hrdef]
    have hrn : r.netloc = (netlocSplit (schemeSplit (removeTabCrLf (lstripC0 u))).2).1 := by
      rw [hrdef]
    have hrp : r.path =
        (cutFirst '?' (cutFirst '#'
          (netlocSplit (schemeSplit (removeTabCrLf (lstripC0 u))).2).2).1).1 := by
      rw [hrdef]
    have hs' : (schemeSplit (removeTabCrLf (lstripC0 u))).1 ≠ [] := by
      rw [← hrs, ← hps]; exact hs
    obtain ⟨fAlpha, fAll, fLow, fColon⟩ := schemeSplit_scheme_facts hs'
    have fAlpha' : headIsAlpha p.scheme = true := by rw [hps, hrs]; exact fAlpha
    have fAll' : p.scheme.all schemeCharB = true := by rw [hps, hrs]; exact fAll
    have fLow' : pyLower p.scheme = p.scheme := by rw [hps, hrs]; exact fLow
    have fColon' : ':' ∉ p.scheme := by rw [hps, hrs]; exact fColon
    -- netloc facts
    have fNet : ∀ c ∈ p.netloc, c ∉ (['/', '?', '#'] : List Char) := by
      rw [hpn, hrn]; exact netlocSplit_fst_clean _
    -- path facts
    have fPq : '?' ∉ r.path := by rw [hrp]; exact cutFirst_fst_not_mem _ _
    have fPh : '#' ∉ r.path := by
      rw [hrp]
      intro hm
      exact cutFirst_fst_not_mem '#' _ (cutFirst_fst_subset _ hm)
    have fPq' : '?' ∉ p.path := fun hm => fPq (by rw [hpp] at hm; exact splitparams_fst_subset _ hm)
    have fPh' : '#' ∉ p.path := fun hm => fPh (by rw [hpp] at hm; exact splitparams_fst_subset _ hm)
    -- canonical decomposition
    have hc_eq : canonicalOf p =
        p.scheme ++ ':' :: '/' :: '/' :: (pyLower p.netloc ++ pyLower p.path) := by
      unfold canonicalOf
      rw [pyLower_append, fLow']
      simp only [pyLower, List.map_cons, List.map_append]
      rw [show lowerChar ':' = ':' from by decide, show lowerChar '/' = '/' from by decide]
    -- lowered component facts
    have hashN : '#' ∉ pyLower p.netloc := by
      rw [mem_pyLower_iff (by decide) (by decide)]
      intro hm
      exact fNet _ hm (by simp)
    have hqN : '?' ∉ pyLower p.netloc := by
      rw [mem_pyLower_iff (by decide) (by decide)]
      intro hm
      exact fNet _ hm (by simp)
    have hashP : '#' ∉ pyLower p.path := by
      rw [mem_pyLower_iff (by decide) (by decide)]; exact fPh'
    have hqP : '?' ∉ pyLower p.path := by
      rw [mem_pyLower_iff (by decide) (by decide)]; exact fPq'
    -- scheme split of the canonical string
    have hsplit_c : schemeSplit (removeTabCrLf (lstripC0 (canonicalOf p))) =
        (p.scheme, '/' :: '/' :: (pyLower p.netloc ++ pyLower p.path)) := by
      rw [hclean, hc_eq]
      unfold schemeSplit
      rw [splitFirst_append _ fColon']
      dsimp only
      rw [if_pos ⟨hs, fAlpha', fAll'⟩, fLow']
    -- netloc split of the canonical string
    have hnet_c : netlocSplit ('/' :: '/' :: (pyLower p.netloc ++ pyLower p.path)) =
        spanNotMem ['/', '?', '#'] (pyLower p.netloc ++ pyLower p.path) := by
      simp [netlocSplit]
    set np := spanNotMem ['/', '?', '#'] (pyLower p.netloc ++ pyLower p.path) with hnp
    have hnp_cat : np.1 ++ np.2 = pyLower p.netloc ++ pyLower p.path :=
      spanNotMem_append_eq _ _
    have hash2 : '#' ∉ np.2 := by
      intro hm
      have : '#' ∈ pyLower p.netloc ++ pyLower p.path := by
        rw [← hnp_cat]; simp [hm]
      rcases List.mem_append.mp this with h | h
      · exact hashN h
      · exact hashP h
    have hq2 : '?' ∉ np.2 := by
      intro hm
      have : '?' ∈ pyLower p.netloc ++ pyLower p.path := by
        rw [← hnp_cat]; simp [hm]
      rcases List.mem_append.mp this with h | h
      · exact hqN h
      · exact hqP h
    have hsemi2 : ';' ∉ np.2 := by
      intro hm
      apply hsemi
      rw [hc_eq, ← hnp_cat]
      simp [hm]
    -- the reparse of the canonical string
    have hre' : urlsplit (canonicalOf p) = some ⟨p.scheme, np.1, np.2, [], []⟩ := by
      obtain ⟨r₂, hr₂⟩ := Option.isSome_iff_exists.mp hre
      obtain ⟨hbr₂, hr₂def⟩ := urlsplit_eq_some hr₂
      rw [hsplit_c] at hr₂def
      dsimp only at hr₂def
      rw [hnet_c] at hr₂def
      rw [cutFirst_of_not_mem hash2] at hr₂def
      dsimp only at hr₂def
      rw [cutFirst_of_not_mem hq2] at hr₂def
      dsimp only at hr₂def
      rw [hr₂, hr₂def]
    -- finish: normalize of the canonical string
    rw [normalize_url_with, urlparse, hre']
    simp only [Option.map_some', Option.some.injEq]
    rw [splitparams_no_semi hsemi2]
    show pyLower
        ((if pyUrlencode (sortPairs (popKeys deny (parse_qs []))) ≠ [] then _ else
          p.scheme ++ ':' :: '/' :: '/' :: (np.1 ++ np.2))) = canonicalOf p
    rw [show parse_qs [] = [] from rfl, popKeys_nil,
      if_neg (by simp [sortPairs, pyUrlencode, List.intercalate])]
    rw [hnp_cat, ← hc_eq]
    show pyLower (canonicalOf p) = canonicalOf p
    exact pyLower_idem _

/-! ## The total order behind `sorted(query.items())` -/

theorem charLtB_asymm (a b : Char) : charLtB a b = true → charLtB b a = true → False := by
  simp only [charLtB, decide_eq_true_eq]
  omega

theorem charLtB_trans (a b c : Char) :
    charLtB a b = true → charLtB b c = true → charLtB a c = true := by
  simp only [charLtB, decide_eq_true_eq]
  omega

theorem charLtB_connex (a b : Char) : charLtB a b = true ∨ a = b ∨ charLtB b a = true := by
  simp only [charLtB, decide_eq_true_eq]
  rcases Nat.lt_trichotomy a.toNat b.toNat with h | h | h
  · exact Or.inl h
  · exact Or.inr (Or.inl (charToNat_inj h))
  · exact Or.inr (Or.inr h)

theorem lexLtB_asymm {α : Type} {lt : α → α → Bool} [DecidableEq α]
    (hasymm : ∀ a b, lt a b = true → lt b a = true → False) :
    ∀ l₁ l₂ : List α, lexLtB lt l₁ l₂ = true → lexLtB lt l₂ l₁ = true → False
  | [], [], h₁, _ => by simp [lexLtB] at h₁
  | [], _ :: _, _, h₂ => by simp [lexLtB] at h₂
  | _ :: _, [], h₁, _ => by simp [lexLtB] at h₁
  | a :: as, b :: bs, h₁, h₂ => by
    simp only [lexLtB] at h₁ h₂
    by_cases hab : lt a b = true
    · by_cases hba : lt b a = true
      · exact hasymm a b hab hba
      · rw [if_neg hba] at h₂
        by_cases hbe : b = a
        · subst hbe
          exact hasymm b b hab hab
        · rw [if_neg hbe] at h₂
          exact Bool.false_ne_true h₂
    · rw [if_neg hab] at h₁
      by_cases hae : a = b
      · subst hae
        rw [if_pos rfl] at h₁
        by_cases haa : lt a a = true
        · exact hasymm a a haa haa
        · rw [if_neg haa, if_pos rfl] at h₂
          exact lexLtB_asymm hasymm as bs h₁ h₂
      · rw [if_neg hae] at h₁
        exact Bool.false_ne_true h₁

theorem lexLtB_trans {α : Type} {lt : α → α → Bool} [DecidableEq α]
    (htr : ∀ a b c, lt a b = true → lt b c = true → lt a c = true) :
    ∀ l₁ l₂ l₃ : List α,
      lexLtB lt l₁ l₂ = true → lexLtB lt l₂ l₃ = true → lexLtB lt l₁ l₃ = true
  | [], [], _, h₁, _ => by simp [lexLtB] at h₁
  | _ :: _, [], _, h₁, _ => by simp [lexLtB] at h₁
  | [], _ :: _, [], _, h₂ => by simp [lexLtB] at h₂
  | [], _ :: _, _ :: _, _, _ => by simp [lexLtB]
  | _ :: _, _ :: _, [], _, h₂ => by simp [lexLtB] at h₂
  | a :: as, b :: bs, c :: cs, h₁, h₂ => by
    simp only [lexLtB] at h₁ h₂ ⊢
    by_cases hab : lt a b = true
    · by_cases hbc : lt b c = true
      · rw [if_pos (htr a b c hab hbc)]
      · rw [if_neg hbc] at h₂
        by_cases hbe : b = c
        · subst hbe
          rw [if_pos hab]
        · rw [if_neg hbe] at h₂
          exact absurd h₂ (by simp)
    · rw [if_neg hab] at h₁
      by_cases hae : a = b
      · subst hae
        rw [if_pos rfl] at h₁
        by_cases hac : lt a c = true
        · rw [if_pos hac]
        · rw [if_neg hac] at h₂ ⊢
          by_cases hce : a = c
          · rw [if_pos hce] at h₂ ⊢
            subst hce
            exact lexLtB_trans htr as bs cs h₁ h₂
          · rw [if_neg hce] at h₂
            exact absurd h₂ (by simp)
      · rw [if_neg hae] at h₁
        exact absurd h₁ (by simp)

theorem lexLtB_connex {α : Type} {lt : α → α → Bool} [DecidableEq α]
    (hcx : ∀ a b, lt a b = true ∨ a = b ∨ lt b a = true) :
    ∀ l₁ l₂ : List α, lexLtB lt l₁ l₂ = true ∨ l₁ = l₂ ∨ lexLtB lt l₂ l₁ = true
  | [], [] => Or.inr (Or.inl rfl)
  | [], _ :: _ => Or.inl (by simp [lexLtB])
  | _ :: _, [] => Or.inr (Or.inr (by simp [lexLtB]))
  | a :: as, b :: bs => by
    rcases hcx a b with h | h | h
    · exact Or.inl (by simp [lexLtB, h])
    · subst h
      rcases lexLtB_connex hcx as bs with h' | h' | h'
      · refine Or.inl ?_
        simp only [lexLtB, if_pos rfl, h']
        split <;> rfl
      · exact Or.inr (Or.inl (by rw [h']))
      · refine Or.inr (Or.inr ?_)
        simp only [lexLtB, if_pos rfl, h']
        split <;> rfl
    · exact Or.inr (Or.inr (by simp [lexLtB, h]))

theorem strLtB_asymm (s t : Str) : strLtB s t = true → strLtB t s = true → False :=
  lexLtB_asymm charLtB_asymm s t

theorem strLtB_trans (s t u : Str) :
    strLtB s t = true → strLtB t u = true → strLtB s u = true :=
  lexLtB_trans charLtB_trans s t u

theorem strLtB_connex (s t : Str) : strLtB s t = true ∨ s = t ∨ strLtB t s = true :=
  lexLtB_connex charLtB_connex s t

theorem valsLtB_asymm (s t : List Str) : valsLtB s t = true → valsLtB t s = true → False :=
  lexLtB_asymm strLtB_asymm s t

theorem valsLtB_trans (s t u : List Str) :
    valsLtB s t = true → valsLtB t u = true → valsLtB s u = true :=
  lexLtB_trans strLtB_trans s t u

theorem valsLtB_connex (s t : List Str) : valsLtB s t = true ∨ s = t ∨ valsLtB t s = true :=
  lexLtB_connex strLtB_connex s t

theorem pairLtB_iff {x y : Str × List Str} :
    pairLtB x y = true ↔ strLtB x.1 y.1 = true ∨ (x.1 = y.1 ∧ valsLtB x.2 y.2 = true) := by
  simp [pairLtB, Bool.or_eq_true, Bool.and_eq_true, decide_eq_true_eq]

theorem pairLtB_asymm (x y : Str × List Str) :
    pairLtB x y = true → pairLtB y x = true → False := by
  rw [pairLtB_iff, pairLtB_iff]
  rintro (h₁ | ⟨he₁, hv₁⟩) (h₂ | ⟨he₂, hv₂⟩)
  · exact strLtB_asymm _ _ h₁ h₂
  · rw [he₂] at h₁; exact strLtB_asymm _ _ h₁ h₁
  · rw [he₁] at h₂; exact strLtB_asymm _ _ h₂ h₂
  · exact valsLtB_asymm _ _ hv₁ hv₂

theorem pairLtB_trans (x y z : Str × List Str) :
    pairLtB x y = true → pairLtB y z = true → pairLtB x z = true := by
  rw [pairLtB_iff, pairLtB_iff, pairLtB_iff]
  rintro (h₁ | ⟨he₁, hv₁⟩) (h₂ | ⟨he₂, hv₂⟩)
  · exact Or.inl (strLtB_trans _ _ _ h₁ h₂)
  · exact Or.inl (he₂ ▸ h₁)
  · exact Or.inl (he₁ ▸ h₂)
  · exact Or.inr ⟨he₁.trans he₂, valsLtB_trans _ _ _ hv₁ hv₂⟩

theorem pairLtB_connex (x y : Str × List Str) :
    pairLtB x y = true ∨ x = y ∨ pairLtB y x = true := by
  rcases strLtB_connex x.1 y.1 with h | h | h
  · exact Or.inl (pairLtB_iff.mpr (Or.inl h))
  · rcases valsLtB_connex x.2 y.2 with h' | h' | h'
    · exact Or.inl (pairLtB_iff.mpr (Or.inr ⟨h, h'⟩))
    · exact Or.inr (Or.inl (Prod.ext h h'))
    · exact Or.inr (Or.inr (pairLtB_iff.mpr (Or.inr ⟨h.symm, h'⟩)))
  · exact Or.inr (Or.inr (pairLtB_iff.mpr (Or.inl h)))

theorem pairLe_iff {x y : Str × List Str} : pairLe x y ↔ pairLtB x y = true ∨ x = y := by
  simp [pairLe, Bool.or_eq_true, decide_eq_true_eq]

instance : IsTotal (Str × List Str) pairLe :=
  ⟨fun x y => by
    rcases pairLtB_connex x y with h | h | h
    · exact Or.inl (pairLe_iff.mpr (Or.inl h))
    · exact Or.inl (pairLe_iff.mpr (Or.inr h))
    · exact Or.inr (pairLe_iff.mpr (Or.inl h))⟩

instance : IsTrans (Str × List Str) pairLe :=
  ⟨fun x y z hxy hyz => by
    rcases pairLe_iff.mp hxy with h₁ | h₁
    · rcases pairLe_iff.mp hyz with h₂ | h₂
      · exact pairLe_iff.mpr (Or.inl (pairLtB_trans x y z h₁ h₂))
      · exact pairLe_iff.mpr (Or.inl (h₂ ▸ h₁))
    · exact h₁ ▸ hyz⟩

instance : IsAntisymm (Str × List Str) pairLe :=
  ⟨fun x y hxy hyx => by
    rcases pairLe_iff.mp hxy with h₁ | h₁
    · rcases pairLe_iff.mp hyx with h₂ | h₂
      · exact absurd h₂ (fun h₂ => pairLtB_asymm x y h₁ h₂)
      · exact h₂.symm
    · exact h₁⟩

/-- Python's stable `sorted` under a strict total order has a unique
result: two permutations sort to the same list. -/
theorem sortPairs_eq_of_perm {l₁ l₂ : List (Str × List Str)} (h : l₁.Perm l₂) :
    sortPairs l₁ = sortPairs l₂ :=
  List.eq_of_perm_of_sorted
    ((List.perm_insertionSort pairLe l₁).trans (h.trans (List.perm_insertionSort pairLe l₂).symm))
    (List.sorted_insertionSort pairLe l₁) (List.sorted_insertionSort pairLe l₂)

/-! ## `parse_qs` and the pops under permutation of the query segments -/

theorem pySplit_no_sep {sep : Char} : ∀ {s : Str}, sep ∉ s → pySplit sep s = [s] := by
  intro s
  induction s with
  | nil => intro _; rfl
  | cons c rest ih =>
    intro h
    have hc : ¬c = sep := fun hh => h (by simp [hh])
    have hrest : sep ∉ rest := fun hh => h (by simp [hh])
    simp [pySplit, hc, ih hrest]

theorem pySplit_append {sep : Char} {a : Str} (b : Str) (ha : sep ∉ a) :
    pySplit sep (a ++ sep :: b) = a :: pySplit sep b := by
  induction a with
  | nil => simp [pySplit]
  | cons c rest ih =>
    have hc : ¬c = sep := fun hh => ha (by simp [hh])
    have hrest : sep ∉ rest := fun hh => ha (by simp [hh])
    have hgoal : pySplit sep ((c :: rest) ++ sep :: b) =
        match pySplit sep (rest ++ sep :: b) with
        | [] => [[c]]
        | s :: ss => (c :: s) :: ss := by
      simp [pySplit, hc]
    rw [hgoal, ih hrest]

theorem pySplit_joinSep {sep : Char} :
    ∀ {segs : List Str}, segs ≠ [] → (∀ s ∈ segs, sep ∉ s) →
      pySplit sep (joinSep sep segs) = segs := by
  intro segs
  induction segs with
  | nil => intro h; exact absurd rfl h
  | cons s rest ih =>
    intro _ hmem
    match rest with
    | [] => exact pySplit_no_sep (hmem s (by simp))
    | t :: r =>
      show pySplit sep (s ++ sep :: joinSep sep (t :: r)) = s :: t :: r
      rw [pySplit_append _ (hmem s (by simp))]
      rw [ih (by simp) (fun x hx => hmem x (by simp [hx]))]

theorem joinSep_eq_nil {sep : Char} :
    ∀ {segs : List Str}, segs ≠ [] → joinSep sep segs = [] → segs = [[]] := by
  intro segs
  match segs with
  | [] => intro h; exact absurd rfl h
  | [s] =>
    intro _ hj
    rw [show joinSep sep [s] = s from rfl] at hj
    rw [hj]
  | s :: t :: r =>
    intro _ hj
    rw [show joinSep sep (s :: t :: r) = s ++ sep :: joinSep sep (t :: r) from rfl] at hj
    rcases List.append_eq_nil.mp hj with ⟨_, h2⟩
    exact absurd h2 (by simp)

theorem parse_qsl_joinSep {segs : List Str} (h : ∀ s ∈ segs, '&' ∉ s) :
    parse_qsl (joinSep '&' segs) = segs.filterMap parseSeg := by
  match segs, h with
  | [], _ => rfl
  | s :: rest, h =>
    by_cases hempty : joinSep '&' (s :: rest) = []
    · have h2 : s :: rest = [[]] := joinSep_eq_nil (by simp) hempty
      rw [parse_qsl, if_pos hempty, h2]
      rfl
    · rw [parse_qsl, if_neg hempty, pySplit_joinSep (by simp) h]

theorem qsAdd_not_mem {d : List (Str × List Str)} {k : Str} (v : Str)
    (h : ∀ e ∈ d, e.1 ≠ k) : qsAdd d k v = d ++ [(k, [v])] := by
  induction d with
  | nil => rfl
  | cons e rest ih =>
    have he : ¬e.1 = k := h e (by simp)
    simp only [qsAdd, if_neg he, List.cons_append]
    rw [ih (fun e' he' => h e' (by simp [he']))]

theorem foldl_qsAdd_of_nodup :
    ∀ {pairs : List (Str × Str)} {acc : List (Str × List Str)},
      (∀ kv ∈ pairs, ∀ e ∈ acc, e.1 ≠ kv.1) → (pairs.map Prod.fst).Nodup →
      pairs.foldl (fun d kv => qsAdd d kv.1 kv.2) acc =
        acc ++ pairs.map (fun kv => (kv.1, [kv.2])) := by
  intro pairs
  induction pairs with
  | nil => intro acc _ _; simp
  | cons kv rest ih =>
    intro acc hacc hnd
    rw [List.foldl_cons]
    rw [qsAdd_not_mem kv.2 (fun e he => hacc kv (by simp) e he)]
    rw [List.map_cons] at hnd
    have hnd' := hnd.of_cons
    have hknotin : kv.1 ∉ rest.map Prod.fst := by
      intro hmem
      exact (List.nodup_cons.mp hnd).1 hmem
    rw [ih ?_ hnd']
    · simp
    · intro kv' hkv' e he
      rcases List.mem_append.mp he with h | h
      · exact hacc kv' (by simp [hkv']) e h
      · have : e = (kv.1, [kv.2]) := by simpa using h
        rw [this]
        intro hEq
        exact hknotin (hEq ▸ List.mem_map_of_mem Prod.fst hkv')

theorem parse_qs_of_nodup {pairs : List (Str × Str)} (h : (pairs.map Prod.fst).Nodup)
    {qs : Str} (hqs : parse_qsl qs = pairs) :
    parse_qs qs = pairs.map (fun kv => (kv.1, [kv.2])) := by
  rw [parse_qs, hqs]
  rw [foldl_qsAdd_of_nodup (by simp) h]
  simp

theorem popKey_eq_filter {k : Str} :
    ∀ {d : List (Str × List Str)}, (d.map Prod.fst).Nodup →
      popKey k d = d.filter (fun e => !(e.1 = k)) := by
  intro d
  induction d with
  | nil => intro _; rfl
  | cons e rest ih =>
    intro hnd
    rw [List.map_cons] at hnd
    by_cases he : e.1 = k
    · rw [popKey, if_pos he]
      have hall : ∀ e' ∈ rest, (!decide (e'.1 = k)) = true := by
        intro e' he'
        simp only [Bool.not_eq_true', decide_eq_false_iff_not]
        intro hk
        have hmem : e'.1 ∈ rest.map Prod.fst := List.mem_map_of_mem Prod.fst he'
        rw [hk, ← he] at hmem
        exact (List.nodup_cons.mp hnd).1 hmem
      rw [List.filter_cons_of_neg (by simp [he])]
      exact (List.filter_eq_self.mpr hall).symm
    · rw [popKey, if_neg he, List.filter_cons_of_pos (by simp [he]), ih hnd.of_cons]

theorem popKey_keys_nodup {k : Str} {d : List (Str × List Str)}
    (h : (d.map Prod.fst).Nodup) : ((popKey k d).map Prod.fst).Nodup := by
  rw [popKey_eq_filter h]
  exact h.sublist ((d.filter_sublist).map Prod.fst)

theorem popKey_perm {k : Str} {d₁ d₂ : List (Str × List Str)} (h : d₁.Perm d₂)
    (hn : (d₁.map Prod.fst).Nodup) : (popKey k d₁).Perm (popKey k d₂) := by
  have hn₂ : (d₂.map Prod.fst).Nodup := ((h.map Prod.fst).nodup_iff).mp hn
  rw [popKey_eq_filter hn, popKey_eq_filter hn₂]
  exact h.filter _

theorem popKeys_perm (ks : List Str) :
    ∀ {d₁ d₂ : List (Str × List Str)}, d₁.Perm d₂ → (d₁.map Prod.fst).Nodup →
      (popKeys ks d₁).Perm (popKeys ks d₂) := by
  induction ks with
  | nil => intro d₁ d₂ h _; exact h
  | cons k rest ih =>
    intro d₁ d₂ h hn
    show (popKeys rest (popKey k d₁)).Perm (popKeys rest (popKey k d₂))
    exact ih (popKey_perm h hn) (popKey_keys_nodup hn)

theorem mem_joinSep {sep c : Char} :
    ∀ {segs : List Str}, c ∈ joinSep sep segs → c = sep ∨ ∃ s ∈ segs, c ∈ s
  | [], h => by simp [joinSep] at h
  | [s], h => Or.inr ⟨s, by simp, h⟩
  | s :: t :: r, h => by
    rw [show joinSep sep (s :: t :: r) = s ++ sep :: joinSep sep (t :: r) from rfl] at h
    rcases List.mem_append.mp h with h | h
    · exact Or.inr ⟨s, by simp, h⟩
    · rcases List.mem_cons.mp h with h | h
      · exact Or.inl h
      · rcases mem_joinSep h with h | ⟨s', hs', hc⟩
        · exact Or.inl h
        · exact Or.inr ⟨s', by simp [hs'], hc⟩

/-! ## Parsing a URL with the fixed base `https://x.com/a?` and a query -/

theorem urlsplit_concrete_base (qs : Str) (hq1 : '#' ∉ qs)
    (hq2 : ∀ c ∈ qs, tabCrLf c = false) :
    urlsplit ("https://x.com/a?".data ++ qs) =
      some ⟨"https".data, "x.com".data, "/a".data, qs, []⟩ := by
  have hstrip : lstripC0 ("https://x.com/a?".data ++ qs) = "https://x.com/a?".data ++ qs := by
    rw [show "https://x.com/a?".data ++ qs = 'h' :: ("ttps://x.com/a?".data ++ qs) from rfl]
    rw [lstripC0, List.dropWhile_cons, if_neg (by decide)]
  have hsan : removeTabCrLf (lstripC0 ("https://x.com/a?".data ++ qs)) =
      "https://x.com/a?".data ++ qs := by
    rw [hstrip, removeTabCrLf, List.filter_append]
    rw [show List.filter (fun c => !tabCrLf c) "https://x.com/a?".data =
        "https://x.com/a?".data from rfl]
    rw [List.filter_eq_self.mpr (by intro c hc; rw [hq2 c hc]; rfl)]
  have hsch : schemeSplit ("https://x.com/a?".data ++ qs) =
      ("https".data, "//x.com/a?".data ++ qs) := by
    rw [schemeSplit,
      show "https://x.com/a?".data ++ qs = "https".data ++ ':' :: ("//x.com/a?".data ++ qs)
        from rfl,
      splitFirst_append _ (by decide)]
    dsimp only
    rw [if_pos (by refine ⟨by decide, by decide, by decide⟩)]
    rw [show pyLower "https".data = "https".data from rfl]
  have hnet : netlocSplit ("//x.com/a?".data ++ qs) = ("x.com".data, "/a?".data ++ qs) := by
    rw [netlocSplit, if_pos (by rfl)]
    rw [show List.drop 2 ("//x.com/a?".data ++ qs) = "x.com".data ++ ("/a?".data ++ qs)
      from rfl]
    exact spanNotMem_of_clean _ (by decide)
      (Or.inr ⟨'/', rfl, by decide⟩)
  have hfrag : cutFirst '#' ("/a?".data ++ qs) = ("/a?".data ++ qs, []) := by
    apply cutFirst_of_not_mem
    intro hm
    rcases List.mem_append.mp hm with h | h
    · exact absurd h (by decide)
    · exact hq1 h
  have hquery : cutFirst '?' ("/a?".data ++ qs) = ("/a".data, qs) := by
    rw [show "/a?".data ++ qs = "/a".data ++ '?' :: qs from rfl]
    exact cutFirst_append qs (by decide)
  simp only [urlsplit, hsan, hsch, hnet, hfrag, hquery]
  rw [if_neg (by decide)]

theorem normalize_concrete_base (deny : List Str) (qs : Str) (hq1 : '#' ∉ qs)
    (hq2 : ∀ c ∈ qs, tabCrLf c = false) :
    normalize_url_with deny ("https://x.com/a?".data ++ qs) =
      some (pyLower
        (if pyUrlencode (sortPairs (popKeys deny (parse_qs qs))) ≠ [] then
          "https://x.com/a".data ++ '?' :: pyUrlencode (sortPairs (popKeys deny (parse_qs qs)))
        else "https://x.com/a".data)) := by
  rw [normalize_url_with, urlparse, urlsplit_concrete_base qs hq1 hq2]
  simp only [Option.map_some', Option.some.injEq]
  rw [show splitparams "/a".data = ("/a".data, []) from by decide]
  rfl

/-- Reordering the query segments of a URL with distinct parameter names
does not change `normalize_url` (the heart of the order-insensitivity in
C8, valid only when no name repeats). -/
theorem normalize_reorder (deny : List Str) {segs₁ segs₂ : List Str}
    (hperm : segs₁.Perm segs₂)
    (hbenign : ∀ s ∈ segs₁, '&' ∉ s ∧ '#' ∉ s ∧ ∀ c ∈ s, tabCrLf c = false)
    (hnodup : ((segs₁.filterMap parseSeg).map Prod.fst).Nodup) :
    normalize_url_with deny ("https://x.com/a?".data ++ joinSep '&' segs₁) =
      normalize_url_with deny ("https://x.com/a?".data ++ joinSep '&' segs₂) := by
  have hbenign₂ : ∀ s ∈ segs₂, '&' ∉ s ∧ '#' ∉ s ∧ ∀ c ∈ s, tabCrLf c = false :=
    fun s hs => hbenign s (hperm.mem_iff.mpr hs)
  have hq1 : ∀ {segs : List Str}, (∀ s ∈ segs, '&' ∉ s ∧ '#' ∉ s ∧
      ∀ c ∈ s, tabCrLf c = false) → '#' ∉ joinSep '&' segs := by
    intro segs hb hm
    rcases mem_joinSep hm with h | ⟨s, hs, hc⟩
    · exact absurd h (by decide)
    · exact (hb s hs).2.1 hc
  have hq2 : ∀ {segs : List Str}, (∀ s ∈ segs, '&' ∉ s ∧ '#' ∉ s ∧
      ∀ c ∈ s, tabCrLf c = false) → ∀ c ∈ joinSep '&' segs, tabCrLf c = false := by
    intro segs hb c hc
    rcases mem_joinSep hc with h | ⟨s, hs, hcs⟩
    · rw [h]; rfl
    · exact (hb s hs).2.2 c hcs
  rw [normalize_concrete_base deny _ (hq1 hbenign) (hq2 hbenign),
    normalize_concrete_base deny _ (hq1 hbenign₂) (hq2 hbenign₂)]
  have hpairs : (segs₁.filterMap parseSeg).Perm (segs₂.filterMap parseSeg) :=
    hperm.filterMap parseSeg
  have hnodup₂ : ((segs₂.filterMap parseSeg).map Prod.fst).Nodup :=
    ((hpairs.map Prod.fst).nodup_iff).mp hnodup
  have hqs₁ : parse_qs (joinSep '&' segs₁) =
      (segs₁.filterMap parseSeg).map (fun kv => (kv.1, [kv.2])) :=
    parse_qs_of_nodup hnodup (parse_qsl_joinSep (fun s hs => (hbenign s hs).1))
  have hqs₂ : parse_qs (joinSep '&' segs₂) =
      (segs₂.filterMap parseSeg).map (fun kv => (kv.1, [kv.2])) :=
    parse_qs_of_nodup hnodup₂ (parse_qsl_joinSep (fun s hs => (hbenign₂ s hs).1))
  have hperm_qs : (parse_qs (joinSep '&' segs₁)).Perm (parse_qs (joinSep '&' segs₂)) := by
    rw [hqs₁, hqs₂]
    exact hpairs.map _
  have hnodup_qs : ((parse_qs (joinSep '&' segs₁)).map Prod.fst).Nodup := by
    rw [hqs₁, List.map_map]
    simpa [Function.comp_def] using hnodup
  rw [sortPairs_eq_of_perm (popKeys_perm deny hperm_qs hnodup_qs)]

/-! ## The claims -/

/-- **C1 counterexample.** URL normalization is *not* idempotent: on
`https://x.com/a?b=2` one pass yields `https://x.com/a?b=%5b%272%27%5d`
(because `urlencode` without `doseq=True` embeds the Python list display of
each `parse_qs` value), and a second pass re-decodes and re-encodes that
value to `...?b=%5b%22%5b%272%27%5d%22%5d`.  This falsifies the claim for
both spiders' `normalize_url`. -/
theorem C1_counterexample :
    (normalize_url_direct "https://x.com/a?b=2".data).bind normalize_url_direct ≠
        normalize_url_direct "https://x.com/a?b=2".data ∧
      (normalize_url_discover "https://x.com/a?b=2".data).bind normalize_url_discover ≠
        normalize_url_discover "https://x.com/a?b=2".data := by
  decide

/-- **C1 (amended).** `normalize_url` is idempotent exactly on the URLs
whose query contributes no parameters after the denylist pops: if `u`
parses with a nonempty scheme, the popped `parse_qs` dict is empty, and the
canonical form needs no sanitization (no tab/CR/LF, no leading control or
space characters), contains no `';'` and reparses without a bracket error,
then `normalize(u)` is the canonical form and `normalize(normalize(u)) =
normalize(u)`.  With any query parameter surviving the pops, idempotence
fails (see the counterexample). -/
theorem C1_theorem (deny : List Str) {u : Str} {p : ParseResult}
    (hp : urlparse u = some p) (hs : p.scheme ≠ [])
    (hq : popKeys deny (parse_qs p.query) = [])
    (hclean : removeTabCrLf (lstripC0 (canonicalOf p)) = canonicalOf p)
    (hsemi : ';' ∉ canonicalOf p)
    (hre : (urlsplit (canonicalOf p)).isSome) :
    normalize_url_with deny u = some (canonicalOf p) ∧
      (normalize_url_with deny u).bind (normalize_url_with deny) =
        normalize_url_with deny u := by
  have h1 := normalize_eq_canonical deny hp hq
  have h2 := normalize_fixes_canonical deny hp hs hclean hsemi hre
  refine ⟨h1, ?_⟩
  rw [h1, Option.some_bind, h2]

/-- Witness for `C1_theorem` at the concrete input
`https://X.com/Docs?session=42` (the `session` parameter is denylisted, so
the popped dict is empty and normalization is a fixpoint from the first
application on). -/
theorem C1_witness :
    (normalize_url_direct "https://X.com/Docs?session=42".data).bind normalize_url_direct =
      normalize_url_direct "https://X.com/Docs?session=42".data :=
  (@C1_theorem denyDirect "https://X.com/Docs?session=42".data
    ⟨"https".data, "X.com".data, "/Docs".data, [], "session=42".data, []⟩
    (by decide) (by decide) (by decide) (by decide) (by decide) (by decide)).2

/-- **C8 counterexample.** Normalization is *not* insensitive to query
order or to the letter case of the whole input: reordering the two values
of a repeated key changes the result (the values are collected in
occurrence order and embedded via `str(list)`), and uppercasing a
denylisted parameter name defeats the exact-match `pop`. -/
theorem C8_counterexample :
    normalize_url_direct "https://x.com/a?b=1&b=2".data ≠
        normalize_url_direct "https://x.com/a?b=2&b=1".data ∧
      normalize_url_direct "https://x.com/a?utm_source=x".data ≠
        normalize_url_direct "https://x.com/a?UTM_SOURCE=x".data := by
  decide

/-- **C8 (amended).** The spec's concrete equivalence holds:
`normalize("https://x.com/a?utm_source=x&b=2") ==
normalize("https://X.COM/a?b=2")`; dropping a denylisted parameter written
in its exact lowercase form leaves the result unchanged (concrete
instance); and reordering the query parameters leaves the result unchanged
provided no parameter name repeats (general statement, over well-formed
query segments).  Insensitivity to letter case holds for the host but not
for denylisted parameter names, and order-insensitivity fails for repeated
names (see the counterexample). -/
theorem C8_theorem :
    (normalize_url_direct "https://x.com/a?utm_source=x&b=2".data =
        normalize_url_direct "https://X.COM/a?b=2".data) ∧
      (normalize_url_direct "https://x.com/a?session=9&b=2".data =
        normalize_url_direct "https://x.com/a?b=2".data) ∧
      ∀ segs₁ segs₂ : List Str, segs₁.Perm segs₂ →
        (∀ s ∈ segs₁, '&' ∉ s ∧ '#' ∉ s ∧ ∀ c ∈ s, tabCrLf c = false) →
        ((segs₁.filterMap parseSeg).map Prod.fst).Nodup →
        normalize_url_direct ("https://x.com/a?".data ++ joinSep '&' segs₁) =
          normalize_url_direct ("https://x.com/a?".data ++ joinSep '&' segs₂) := by
  refine ⟨by decide, by decide, ?_⟩
  intro segs₁ segs₂ hperm hb hn
  exact normalize_reorder denyDirect hperm hb hn

/-- Witness for `C8_theorem`: reordering the distinct-keyed segments
`b=2` and `a=1` leaves normalization unchanged. -/
theorem C8_witness :
    normalize_url_direct ("https://x.com/a?".data ++ joinSep '&' ["b=2".data, "a=1".data]) =
      normalize_url_direct ("https://x.com/a?".data ++ joinSep '&' ["a=1".data, "b=2".data]) :=
  C8_theorem.2.2 ["b=2".data, "a=1".data] ["a=1".data, "b=2".data]
    (by decide) (by decide) (by decide)

/-- **C3.** Retryable classification is substring matching of the
lowercased error code against the fixed transient set: the Boolean result
is `true` exactly when some marker is an infix of the lowercased code, and
the spec's concrete cases hold (`"503"` → true, `"HTTP_503"` → true,
`"spider_error"` → false). -/
theorem C3_theorem :
    (∀ ec : Str, is_retryable_error ec = true ↔
        ∃ code ∈ retryable_codes, code <:+: pyLower ec) ∧
      is_retryable_error "503".data = true ∧
      is_retryable_error "HTTP_503".data = true ∧
      is_retryable_error "spider_error".data = false := by
  refine ⟨?_, by decide, by decide, by decide⟩
  intro ec
  simp [is_retryable_error, strContains, List.any_eq_true]

theorem pyRange_mem {s e pg : Int} : pg ∈ pyRange s e ↔ s ≤ pg ∧ pg < e := by
  rw [pyRange, List.mem_map]
  constructor
  · rintro ⟨i, hi, rfl⟩
    rw [List.mem_range] at hi
    omega
  · intro h
    refine ⟨(pg - s).toNat, ?_, ?_⟩
    · rw [List.mem_range]
      omega
    · omega

theorem pyRange_pairwise (s e : Int) : List.Pairwise (· < ·) (pyRange s e) := by
  rw [pyRange, List.pairwise_map]
  exact (List.pairwise_lt_range _).imp (by intro a b hab; omega)

/-- **C4.** Resolving a `page_range` partition with `start_page = s` and
`end_page = e` yields exactly one request per integer page from `s` to `e`
inclusive (none when `s > e`), in strictly ascending order with no
duplicates; e.g. `page_range(3, 5)` yields pages `[3, 4, 5]`. -/
theorem C4_theorem (h : SpiderHooks) (s e : Int) :
    ((build_page_range_requests h
        { partitionType := some "page_range".data, startPage := some s, endPage := some e }).map
          (fun r => r.metaPage) = (pyRange s (e + 1)).map some) ∧
      (∀ pg : Int, pg ∈ pyRange s (e + 1) ↔ s ≤ pg ∧ pg ≤ e) ∧
      List.Pairwise (· < ·) (pyRange s (e + 1)) ∧
      (build_page_range_requests testHooks
        { partitionType := some "page_range".data, startPage := some 3, endPage := some 5 }).map
          (fun r => r.metaPage) = [some 3, some 4, some 5] := by
  refine ⟨?_, ?_, pyRange_pairwise s (e + 1), by decide⟩
  · simp [build_page_range_requests, List.map_map, Function.comp_def]
  · intro pg
    rw [pyRange_mem]
    omega

/-- **C5 counterexample.** A `year_range` payload with *both* bounds
present but `start_year = 0` yields zero requests and a recorded error —
the guard is Python truthiness (`if not start_year or not end_year`), so a
zero year behaves like a missing one, contradicting the claim that any
payload with both bounds present resolves to one request per year. -/
theorem C5_counterexample :
    ({ partitionType := some "year_range".data, startYear := some 0,
        endYear := some 5 : TaskPayload }.startYear.isSome = true) ∧
      ({ partitionType := some "year_range".data, startYear := some 0,
          endYear := some 5 : TaskPayload }.endYear.isSome = true) ∧
      build_year_range_requests testHooks
        { partitionType := some "year_range".data, startYear := some 0, endYear := some 5 } =
        ([], [.missingYearRange]) := by
  decide

/-- **C5 (amended).** A `year_range` payload with either bound missing —
or, by Python truthiness, equal to `0` — yields zero requests and records
a resolution error; with both bounds present and nonzero it yields one
request per integer year, inclusive, ascending, each carrying its own year
as `cookiejar` session key (distinct per year) and `dont_filter=True`. -/
theorem C5_theorem (h : SpiderHooks) :
    (∀ p : TaskPayload, p.startYear = none ∨ p.endYear = none →
        build_year_range_requests h p = ([], [.missingYearRange])) ∧
      ∀ (p : TaskPayload) (s e : Int), p.startYear = some s → p.endYear = some e →
        s ≠ 0 → e ≠ 0 →
        ((build_year_range_requests h p).1.map (fun r => r.metaYear) =
            (pyRange s (e + 1)).map some ∧
          (build_year_range_requests h p).1.map (fun r => r.metaCookiejar) =
            (pyRange s (e + 1)).map some ∧
          (∀ r ∈ (build_year_range_requests h p).1, r.dontFilter = true) ∧
          List.Pairwise (· < ·) (pyRange s (e + 1)) ∧
          (build_year_range_requests h p).2 = []) := by
  constructor
  · intro p hmiss
    rcases hmiss with hm | hm
    · rw [build_year_range_requests, hm]
    · rw [build_year_range_requests, hm]
      cases hps : p.startYear <;> rfl
  · intro p s e hps hpe hs he
    have hbuild : build_year_range_requests h p =
        ((pyRange s (e + 1)).map fun y =>
          { url := h.getYearUrl y
            callback := if h.hasParseListing then .parseListing else .parse
            metaYear := some y
            metaCookiejar := some y
            metaDepth := some 1
            dontFilter := true }, []) := by
      have hcond : ¬(s = 0 ∨ e = 0) := by
        rintro (h0 | h0)
        · exact hs h0
        · exact he h0
      rw [build_year_range_requests, hps, hpe]
      dsimp only
      rw [if_neg hcond]
    rw [hbuild]
    refine ⟨?_, ?_, ?_, pyRange_pairwise s (e + 1), rfl⟩
    · simp [List.map_map, Function.comp_def]
    · simp [List.map_map, Function.comp_def]
    · intro r hr
      simp only [List.mem_map] at hr
      obtain ⟨y, _, rfl⟩ := hr
      rfl

/-- Witness for `C5_theorem`: the missing-bound case at
`year_range(start_year=2020)` (no `end_year`) and the complete case at
`year_range(2020, 2022)`. -/
theorem C5_witness :
    build_year_range_requests testHooks
        { partitionType := some "year_range".data, startYear := some 2020 } =
        ([], [.missingYearRange]) ∧
      (build_year_range_requests testHooks
        { partitionType := some "year_range".data, startYear := some 2020,
          endYear := some 2022 }).1.map (fun r => r.metaCookiejar) =
        [some 2020, some 2021, some 2022] := by
  constructor
  · exact (C5_theorem testHooks).1 _ (Or.inr rfl)
  · rw [((C5_theorem testHooks).2 _ 2020 2022 rfl rfl (by decide) (by decide)).2.1]
    decide

/-- **C9.** A payload whose `partition_type` is not one of the eight
recognized kinds (including a missing `partition_type`) makes the resolver
log an error and yield zero fetch requests — no exception is raised, so a
spider run over such a task does no work and exits normally, and the
executor reports exit code 0 as success (`execute_task` below). -/
theorem C9_theorem (h : SpiderHooks) (p : TaskPayload)
    (hpt : p.partitionType ∉ recognizedPartitionTypes.map some) :
    build_requests_from_task h p = .ok ([], [.unknownPartitionType p.partitionType]) := by
  have hne : ∀ t ∈ recognizedPartitionTypes, p.partitionType ≠ some t := by
    intro t ht hEq
    exact hpt (hEq ▸ List.mem_map_of_mem some ht)
  rw [build_requests_from_task,
    if_neg (hne _ (by decide)), if_neg (hne _ (by decide)), if_neg (hne _ (by decide)),
    if_neg (hne _ (by decide)), if_neg (hne _ (by decide)), if_neg (hne _ (by decide)),
    if_neg (hne _ (by decide)), if_neg (hne _ (by decide))]

/-- Witness for `C9_theorem`: the unrecognized type `bogus` resolves to
zero requests plus a logged error. -/
theorem C9_witness :
    build_requests_from_task testHooks { partitionType := some "bogus".data } =
      .ok ([], [.unknownPartitionType (some "bogus".data)]) :=
  C9_theorem testHooks { partitionType := some "bogus".data } (by decide)

/-- **C10.** Resolving an `id_range` partition with `start_id` or `end_id`
missing raises an uncaught `TypeError` (from `range` arithmetic on `None`)
instead of yielding zero requests with a logged error — unlike the
`year_range` resolver, which guards its bounds; with both integer bounds
present it yields one `parse_detail` request per id, inclusive. -/
theorem C10_theorem (h : SpiderHooks) (p : TaskPayload) :
    (p.partitionType = some "id_range".data → p.startId = none ∨ p.endId = none →
        build_requests_from_task h p = .error .typeError) ∧
      ∀ s e : Int, p.startId = some s → p.endId = some e →
        build_id_range_requests h p =
          .ok ((pyRange s (e + 1)).map fun i =>
            { url := h.getIdUrl i, callback := .parseDetail }) := by
  constructor
  · intro hpt hmiss
    have hid : build_id_range_requests h p = .error .typeError := by
      rcases hmiss with hm | hm
      · rw [build_id_range_requests, hm]
      · rw [build_id_range_requests, hm]
        cases hps : p.startId <;> rfl
    rw [build_requests_from_task, hpt]
    rw [if_neg (by decide), if_neg (by decide), if_neg (by decide), if_neg (by decide),
      if_pos rfl, hid]
    rfl
  · intro s e hps hpe
    rw [build_id_range_requests, hps, hpe]

/-- Witness for `C10_theorem`: `id_range` with only `start_id` raises, and
`id_range(7, 9)` resolves to three detail requests. -/
theorem C10_witness :
    build_requests_from_task testHooks
        { partitionType := some "id_range".data, startId := some 10 } = .error .typeError ∧
      build_id_range_requests testHooks
        { partitionType := some "id_range".data, startId := some 7, endId := some 9 } =
        .ok ((pyRange 7 10).map fun i =>
          { url := testHooks.getIdUrl i, callback := .parseDetail }) := by
  constructor
  · exact (C10_theorem testHooks _).1 rfl (Or.inr rfl)
  · exact (C10_theorem testHooks _).2 7 9 rfl rfl

/-- **C7.** If the spawned crawl process does not finish within the 2-hour
wall-clock timeout, the executor kills it, waits for it, and reports
failure with `error_code = "timeout"`; a process that exits normally with
code 0 within the budget is reported as success with no error code and no
kill. -/
theorem C7_theorem (p : ProcBehavior) :
    (p.duration > EXEC_TIMEOUT →
        execute_task p =
          ({ success := false, errorCode := some "timeout".data }, [.kill, .wait])) ∧
      (p.duration ≤ EXEC_TIMEOUT → p.exitCode = 0 →
        execute_task p = ({ success := true, errorCode := none }, [])) := by
  constructor
  · intro htime
    rw [execute_task, if_pos htime]
  · intro htime hzero
    rw [execute_task, if_neg (by omega), if_pos hzero]

/-- Witness for `C7_theorem`: a process running 8000 s is killed and
reported as `timeout`; a 100 s run exiting 0 is a success. -/
theorem C7_witness :
    execute_task ⟨8000, 1⟩ =
        ({ success := false, errorCode := some "timeout".data }, [.kill, .wait]) ∧
      execute_task ⟨100, 0⟩ = ({ success := true, errorCode := none }, []) :=
  ⟨(C7_theorem ⟨8000, 1⟩).1 (by decide), (C7_theorem ⟨100, 0⟩).2 (by decide) rfl⟩

/-- **C6.** If the task settles before one `heartbeat_interval` has
elapsed, zero heartbeat requests are sent (the heartbeat coroutine is
still inside its first `asyncio.sleep` when it is cancelled); and in every
execution the trace ends with the task settling, the heartbeat being
cancelled, the cancellation being awaited, and only then the outcome being
returned — every heartbeat strictly precedes these, so none is sent after
the task's result has been decided. -/
theorem C6_theorem (interval D : Nat) (hpos : 0 < interval) :
    (D < interval →
        execute_task_with_heartbeat interval D =
          [.taskSettled, .cancelRequested, .heartbeatStopped, .outcomeReturned]) ∧
      ∃ hbs : List HbEv,
        execute_task_with_heartbeat interval D =
          hbs ++ [.taskSettled, .cancelRequested, .heartbeatStopped, .outcomeReturned] ∧
          ∀ ev ∈ hbs, ∃ t, ev = HbEv.heartbeat t ∧ 0 < t ∧ t ≤ D := by
  constructor
  · intro hD
    have hempty : heartbeatTimes interval D = [] := by
      rw [heartbeatTimes, List.filter_eq_nil_iff]
      intro t ht
      rw [List.mem_range] at ht
      simp only [decide_eq_true_eq, Bool.and_eq_true, not_and]
      intro htz
      have hlt : t < interval := by omega
      rw [Nat.mod_eq_of_lt hlt]
      omega
    rw [execute_task_with_heartbeat, hempty]
    rfl
  · refine ⟨(heartbeatTimes interval D).map .heartbeat, rfl, ?_⟩
    intro ev hev
    rw [List.mem_map] at hev
    obtain ⟨t, ht, rfl⟩ := hev
    rw [heartbeatTimes, List.mem_filter, List.mem_range] at ht
    refine ⟨t, rfl, ?_, by omega⟩
    have := ht.2
    simp only [decide_eq_true_eq, Bool.and_eq_true] at this
    omega

/-- Witness for `C6_theorem`: with `heartbeat_interval = 120` and a task
settling after 5 s, the trace contains no heartbeat at all. -/
theorem C6_witness :
    execute_task_with_heartbeat 120 5 =
      [.taskSettled, .cancelRequested, .heartbeatStopped, .outcomeReturned] :=
  (C6_theorem 120 5 (by decide)).1 (by decide)

/-- **C2 counterexample.** A dedicated worker (`run_id_filter` set) that
receives `204` from the lease endpoint does *not* exit immediately: the
`if not task:` branch in `run()` sleeps the poll interval unconditionally
before `continue` re-tests `self.running`, so exactly one poll-interval
sleep separates the `204` from the loop exit. -/
theorem C2_counterexample :
    WorkerEv.sleepPoll ∈ (workerRun true 5 true [LeaseResp.noContent]).1 ∧
      workerRun true 5 true [LeaseResp.noContent] =
        ([.leaseRequest, .sleepPoll], false) := by
  decide

/-- **C2 (amended).** A worker started with a `run_id_filter` that
receives `204` issues no further lease request: `lease_task` clears
`self.running`, the loop sleeps one final poll interval and then exits
(whatever responses would have followed and however much fuel remains); a
worker with no `run_id_filter` sleeps and retries indefinitely — after any
number `n` of `204` responses it has issued `n` lease requests, slept `n`
times and is still running. -/
theorem C2_theorem :
    (∀ (fuel : Nat) (rest : List LeaseResp),
        workerRun true (fuel + 1) true (LeaseResp.noContent :: rest) =
          ([.leaseRequest, .sleepPoll], false)) ∧
      ∀ n : Nat,
        workerRun false n true (List.replicate n LeaseResp.noContent) =
          ((List.replicate n [WorkerEv.leaseRequest, WorkerEv.sleepPoll]).flatten, true) := by
  have hstop : ∀ (hf : Bool) (fuel : Nat) (resps : List LeaseResp),
      workerRun hf fuel false resps = ([], false) := by
    intro hf fuel resps
    cases fuel <;> rfl
  constructor
  · intro fuel rest
    show (WorkerEv.leaseRequest :: WorkerEv.sleepPoll ::
        (workerRun true fuel false rest).1, (workerRun true fuel false rest).2) =
      ([.leaseRequest, .sleepPoll], false)
    rw [hstop]
  · intro n
    induction n with
    | zero => rfl
    | succ m ih =>
      show (WorkerEv.leaseRequest :: WorkerEv.sleepPoll ::
          (workerRun false m true (List.replicate m LeaseResp.noContent)).1,
        (workerRun false m true (List.replicate m LeaseResp.noContent)).2) =
        (((List.replicate (m + 1) [WorkerEv.leaseRequest, WorkerEv.sleepPoll])).flatten, true)
      rw [ih]
      rfl
